import Mathlib

-- Verification development for the Nachos-lineage kernel: on-disk file
-- system (file_system.cc, open_file.cc) and priority scheduler
-- (scheduler.cc).  Components whose sources are not part of the repository
-- snapshot (bitmap, file header, directory, open-file table, sorted list)
-- are modelled from the specification and marked as such.

namespace Nachos

/-- Modelled from the spec: bytes per disk sector (`SECTOR_SIZE`). -/
def SECTOR_SIZE : Nat := 128

/-- Modelled from the spec: number of direct blocks per file header
(`NUM_DIRECT`); the spec's scenarios use 30. -/
def NUM_DIRECT : Nat := 30

/-- Modelled from the spec: number of sectors on the disk (`NUM_SECTORS`);
the spec's scenarios use a 64-sector disk. -/
def NUM_SECTORS : Nat := 64

/-- Modelled from the spec: number of slots in a directory
(`NUM_DIR_ENTRIES`, value unspecified in the spec; the classic value 10 is
used, no claim depends on it). -/
def NUM_DIR_ENTRIES : Nat := 10

/-- Modelled from the spec: serialized size of one directory entry
(layout given in the spec, exact padding unknown; no claim depends on it). -/
def DIR_ENTRY_BYTES : Nat := 16

/-- Modelled from the spec: size of the serialized directory file. -/
def DIRECTORY_FILE_SIZE : Nat := DIR_ENTRY_BYTES * NUM_DIR_ENTRIES

/-- Modelled from the spec: size of the serialized free-map file
(`NUM_SECTORS / BITS_IN_BYTE`). -/
def FREE_MAP_FILE_SIZE : Nat := NUM_SECTORS / 8

/-- Sector holding the free-map file header (file_system.cc). -/
def FREE_MAP_SECTOR : Nat := 0

/-- Sector holding the root-directory file header (file_system.cc). -/
def DIRECTORY_SECTOR : Nat := 1

/-- 2^32: modulus of the C++ `unsigned` arithmetic used by open_file.cc. -/
def W32 : Nat := 2 ^ 32

/-- Unsigned 32-bit subtraction `a - b` with wrap-around, as computed by the
C++ `unsigned` subtraction in `OpenFile::WriteAt`. -/
def usub (a b : Nat) : Nat := (a + W32 - b % W32) % W32

/-- `DivRoundUp` from the source's lib utilities. -/
def divRoundUp (a b : Nat) : Nat := (a + b - 1) / b

-- ------------------------------------------------------------------
-- Bitmap (modelled from the spec, §4.1: the source file is not in the
-- repository snapshot).
-- ------------------------------------------------------------------

/-- Modelled from the spec: a bitmap over sector indices, one Bool per
sector. -/
abbrev Bitmap := List Bool

/-- Modelled from the spec: `Bitmap::Test(i)`. -/
def Bitmap.test (b : Bitmap) (i : Nat) : Bool := b.getD i false

/-- Modelled from the spec: `Bitmap::Mark(i)`. -/
def Bitmap.mark (b : Bitmap) (i : Nat) : Bitmap := b.set i true

/-- Modelled from the spec: `Bitmap::Clear(i)`. -/
def Bitmap.clear (b : Bitmap) (i : Nat) : Bitmap := b.set i false

/-- Modelled from the spec: the smallest clear bit, if any
(`Bitmap::Find` before marking). -/
def Bitmap.findClear (b : Bitmap) : Option Nat := b.findIdx? (fun x => !x)

/-- Modelled from the spec: `Bitmap::Find()` returns the smallest clear bit
and marks it, or fails when the bitmap is full. -/
def Bitmap.findAndMark (b : Bitmap) : Option (Nat × Bitmap) :=
  (Bitmap.findClear b).map (fun i => (i, Bitmap.mark b i))

/-- Modelled from the spec: allocate `k` sectors by `k` successive
`Bitmap::Find()` calls; atomic on failure. -/
def allocSectors (b : Bitmap) : Nat → Option (List Nat × Bitmap)
  | 0 => some ([], b)
  | Nat.succ k =>
    match Bitmap.findAndMark b with
    | none => none
    | some (s, b1) => (allocSectors b1 k).map (fun p => (s :: p.1, p.2))

-- ------------------------------------------------------------------
-- File header (modelled from the spec, §4.2: the source file is
-- not in the repository snapshot).
-- ------------------------------------------------------------------

/-- Modelled from the spec: a file header (inode); `numSectors` is the
length of `dataSectors`. -/
structure FileHeader where
  numBytes : Nat
  dataSectors : List Nat
deriving DecidableEq

/-- Modelled from the spec: `FileHeader::Allocate(freeMap, size)`; consumes
`ceil(size/SECTOR_SIZE)` free bits, atomic on failure. -/
def FileHeader.Allocate (freeMap : Bitmap) (size : Nat) :
    Option (FileHeader × Bitmap) :=
  let n := divRoundUp size SECTOR_SIZE
  if n ≤ NUM_DIRECT then
    (allocSectors freeMap n).map (fun p => (⟨size, p.1⟩, p.2))
  else none

/-- Modelled from the spec: `FileHeader::Extend(freeMap, add)` grows
`numBytes` by `add` and appends the sectors needed for the new
`numSectors`; atomic on failure. -/
def FileHeader.Extend (h : FileHeader) (freeMap : Bitmap) (add : Nat) :
    Option (FileHeader × Bitmap) :=
  let nb := h.numBytes + add
  let n2 := divRoundUp nb SECTOR_SIZE
  if n2 ≤ NUM_DIRECT then
    (allocSectors freeMap (n2 - h.dataSectors.length)).map
      (fun p => (⟨nb, h.dataSectors ++ p.1⟩, p.2))
  else none

/-- Modelled from the spec: `FileHeader::Deallocate(freeMap)` clears every
data-sector bit. -/
def FileHeader.Deallocate (h : FileHeader) (freeMap : Bitmap) : Bitmap :=
  h.dataSectors.foldl Bitmap.clear freeMap

/-- Modelled from the spec: `FileHeader::ByteToSector(offset)`. -/
def FileHeader.ByteToSector (h : FileHeader) (off : Nat) : Nat :=
  h.dataSectors.getD (off / SECTOR_SIZE) 0

/-- `FileHeader::FileLength()`. -/
def FileHeader.FileLength (h : FileHeader) : Nat := h.numBytes

-- ------------------------------------------------------------------
-- Directory (modelled from the spec, §4.3: the source file is not in the
-- repository snapshot).
-- ------------------------------------------------------------------

/-- Modelled from the spec: one directory slot. -/
structure DirEntry where
  inUse : Bool
  isDir : Bool
  name : List Char
  sector : Nat
deriving DecidableEq

/-- Modelled from the spec: a directory is a fixed array of slots. -/
abbrev Directory := List DirEntry

/-- Modelled from the spec: `Directory::Find(name, asDir)` returns the
header sector of the first in-use entry whose name matches and whose
`isDir` flag equals the filter, or -1 (the filter asymmetry of §4.3 is
preserved: without the flag, only non-directory entries match). -/
def Directory.findI (d : Directory) (name : List Char) (asDir : Bool) : Int :=
  match d.find? (fun e => e.inUse && e.isDir == asDir && e.name == name) with
  | some e => (e.sector : Int)
  | none => -1

/-- Modelled from the spec: `Directory::Add(name, sector, asDir)` succeeds
iff the name is absent and a free slot exists. -/
def Directory.add (d : Directory) (name : List Char) (sector : Nat)
    (asDir : Bool) : Option Directory :=
  if d.any (fun e => e.inUse && e.name == name) then none
  else
    match d.findIdx? (fun e => !e.inUse) with
    | some i => some (d.set i ⟨true, asDir, name, sector⟩)
    | none => none

/-- Modelled from the spec: `Directory::Remove(name)` clears the first
in-use slot with that name and returns the sector that was there, or 0 if
absent. -/
def Directory.removeName : Directory → List Char → Nat × Directory
  | [], _ => (0, [])
  | e :: rest, name =>
    if e.inUse && e.name == name then (e.sector, { e with inUse := false } :: rest)
    else
      let p := Directory.removeName rest name
      (p.1, e :: p.2)

-- ------------------------------------------------------------------
-- Open-file table (modelled from the spec, §4.5: the source file is not in
-- the repository snapshot).
-- ------------------------------------------------------------------

/-- Modelled from the spec: one open-file node (`Filenode`): leaf name,
header sector, live-handle count, deferred-unlink flag.  The reader count
and the two semaphores are modelled separately as the `NodeSync`
transition system. -/
structure Filenode where
  name : List Char
  sector : Nat
  users : Int
  remove : Bool
deriving DecidableEq

/-- Modelled from the spec: the process-wide open-file table, keyed by
header sector. -/
abbrev Filetable := List Filenode

/-- Modelled from the spec: `filetable->find(sector)`. -/
def Filetable.find (t : Filetable) (sec : Nat) : Option Filenode :=
  t.find? (fun n => n.sector == sec)

/-- Modelled from the spec: `filetable->add_file(name, sector)` idempotently
returns the existing node or inserts a fresh one (no users, not removed). -/
def Filetable.add_file (t : Filetable) (name : List Char) (sec : Nat) :
    Filenode × Filetable :=
  match Filetable.find t sec with
  | some n => (n, t)
  | none => (⟨name, sec, 0, false⟩, t ++ [⟨name, sec, 0, false⟩])

/-- Update the node with the given sector key in place. -/
def Filetable.mapNode (t : Filetable) (sec : Nat) (g : Filenode → Filenode) :
    Filetable :=
  t.map (fun n => if n.sector == sec then g n else n)

/-- Modelled from the spec: `filetable->remove(sector)`. -/
def Filetable.removeNode (t : Filetable) (sec : Nat) : Filetable :=
  t.filter (fun n => n.sector != sec)

-- ------------------------------------------------------------------
-- The disk and the file-system state.
-- ------------------------------------------------------------------

/-- The disk, as a typed store: byte contents of data sectors, serialized
file headers, serialized directory contents (keyed by the directory's
header sector), and the contents of the free-map file (spec §6: the
bitmap is stored verbatim in the file at sector 0; header and directory
Fetch/WriteBack are pure serialization, so the typed store round-trips
exactly as the byte store does). -/
structure Disk where
  data : Nat → List Nat
  headers : Nat → FileHeader
  dirs : Nat → Directory
  fmap : Bitmap

/-- The whole file-system state: the disk plus the open-file table. -/
structure FS where
  disk : Disk
  filetable : Filetable

/-- `synchDisk->WriteSector(s, bytes)` on a data sector. -/
def Disk.writeData (d : Disk) (s : Nat) (bytes : List Nat) : Disk :=
  { d with data := Function.update d.data s bytes }

-- ------------------------------------------------------------------
-- Path handling (translated from file_system.cc: getName, CheckRoot,
-- OpenPath).
-- ------------------------------------------------------------------

/-- Whether the path starts with a slash (`_path[0] == '/'`). -/
def startsSlash (p : List Char) : Bool :=
  match p with
  | [] => false
  | c :: _ => c == '/'

/-- `CheckRoot` (file_system.cc): an absolute path is returned unchanged; a
relative path is prefixed with the current thread's working path, with a
slash ensured in between. -/
def checkRoot (wd p : List Char) : List Char :=
  if startsSlash p then p
  else (if wd.getLast? == some '/' then wd else wd ++ ['/']) ++ p

/-- Index of the last slash of `p`, if any. -/
def lastSlashIdx (p : List Char) : Option Nat :=
  match p.reverse.findIdx? (fun c => c == '/') with
  | some j => some (p.length - 1 - j)
  | none => none

/-- `getName` (file_system.cc): the suffix after the last slash at index
at most `len-2` when the path ends in a slash, the whole path when it is
relative and does not end in a slash, and the suffix after the last slash
otherwise. -/
def getName (p : List Char) : List Char :=
  if p == [] then p
  else if p.getLast? == some '/' then
    match lastSlashIdx p.dropLast with
    | some i => p.drop (i + 1)
    | none => p
  else if !startsSlash p then p
  else
    match lastSlashIdx p with
    | some i => p.drop (i + 1)
    | none => p

/-- Split a character list at every slash; the segments between slashes,
as scanned by the `OpenPath` loop. -/
def splitSlash : List Char → List (List Char)
  | [] => [[]]
  | c :: rest =>
    let r := splitSlash rest
    if c == '/' then [] :: r
    else
      match r with
      | [] => [[c]]
      | h :: t => (c :: h) :: t

/-- The descending walk of `OpenPath`: each component before a slash is
looked up as a directory entry (`Find(p, true)`); -1 means the path does
not resolve and the source returns a null directory. -/
def openPathWalk (fs : FS) : List (List Char) → Directory → Nat →
    Option (Directory × Nat)
  | [], dir, sec => some (dir, sec)
  | comp :: rest, dir, _ =>
    let s := Directory.findI dir comp true
    if s == -1 then none
    else openPathWalk fs rest (fs.disk.dirs s.toNat) s.toNat

/-- `FileSystem::OpenPath` (file_system.cc): resolve every component before
the final one, starting from the root directory, and return the parent
directory together with its header sector; null (`none`) when an
intermediate component is missing. -/
def FileSystem.OpenPath (fs : FS) (wd _path : List Char) :
    Option (Directory × Nat) :=
  let path := checkRoot wd _path
  let comps := splitSlash (path.drop 1)
  openPathWalk fs comps.dropLast (fs.disk.dirs DIRECTORY_SECTOR)
    DIRECTORY_SECTOR

-- ------------------------------------------------------------------
-- Open-file handles and their operations (translated from open_file.cc).
-- ------------------------------------------------------------------

/-- An open-file handle (`OpenFile`): header sector, seek cursor, and the
cached in-memory header (refreshed by each operation's `FetchFrom`). -/
structure OpenFile where
  sector : Nat
  seekPosition : Nat
  hdr : FileHeader
deriving DecidableEq

/-- The `OpenFile(sector)` constructor: fetch the header, cursor at 0. -/
def OpenFile.mk0 (fs : FS) (sec : Nat) : OpenFile :=
  ⟨sec, 0, fs.disk.headers sec⟩

/-- `OpenFile::Length()` (open_file.cc): refetches the cached header from
disk before returning `numBytes`, so extensions made through other handles
are observed; returns the length and the updated handle. -/
def OpenFile.Length (fs : FS) (f : OpenFile) : Nat × OpenFile :=
  let h := fs.disk.headers f.sector
  (h.FileLength, { f with hdr := h })

/-- `FileSystem::Expand(sector, size)` (file_system.cc): load header and
free map, `Extend`, persist both on success; on failure nothing is
written. -/
def FileSystem.Expand (fs : FS) (sector size : Nat) : Bool × FS :=
  let header := fs.disk.headers sector
  let freeMap := fs.disk.fmap
  match FileHeader.Extend header freeMap size with
  | some (h2, m2) =>
    (true,
     { fs with disk := { fs.disk with
         fmap := m2,
         headers := Function.update fs.disk.headers sector h2 } })
  | none => (false, fs)

/-- The `j`-th sector-sized slice of a byte buffer (`buf[j*SECTOR_SIZE]`). -/
def sectorSlice (buf : List Nat) (j : Nat) : List Nat :=
  (buf.drop (j * SECTOR_SIZE)).take SECTOR_SIZE

/-- `memcpy(&buf[off], src, src.length)`: splice `src` into `buf` at
offset `off`. -/
def splice (buf : List Nat) (off : Nat) (src : List Nat) : List Nat :=
  buf.take off ++ src ++ buf.drop (off + src.length)

/-- `OpenFile::Internal_ReadAt` (open_file.cc): clamp the request to the
file length, read every touched sector whole, and copy out the requested
slice; returns the byte count and the bytes. -/
def Internal_ReadAt (d : Disk) (hdr : FileHeader) (numBytes position : Nat) :
    Nat × List Nat :=
  if numBytes = 0 then (0, [])
  else
    let fileLength := hdr.FileLength
    if position ≥ fileLength then (0, [])
    else
      let n := if position + numBytes > fileLength then fileLength - position
               else numBytes
      let firstSector := position / SECTOR_SIZE
      let lastSector := (position + n - 1) / SECTOR_SIZE
      let numS := 1 + lastSector - firstSector
      let buf := ((List.range numS).map
        (fun j => d.data (hdr.ByteToSector ((firstSector + j) * SECTOR_SIZE)))).flatten
      (n, (buf.drop (position - firstSector * SECTOR_SIZE)).take n)

/-- The sector write-back loop of `Internal_WriteAt`: write slice `j` of
the assembled buffer to the sector holding byte `(first+j)*SECTOR_SIZE`. -/
def writeLoop (d : Disk) (hdr : FileHeader) (firstSector numS : Nat)
    (buf : List Nat) : Disk :=
  (List.range numS).foldl
    (fun dd j =>
      Disk.writeData dd (hdr.ByteToSector ((firstSector + j) * SECTOR_SIZE))
        (sectorSlice buf j)) d

/-- `OpenFile::Internal_WriteAt` (open_file.cc): `ASSERT(numBytes > 0)` is
an abort (`none`); reads beyond the end return 0; a write past the end
asks the facade to `Expand` and clamps on failure; partially covered head
and tail sectors are read in first, the new bytes are spliced in, and
every touched sector is written back. -/
def Internal_WriteAt (fs : FS) (sector : Nat) (hdr : FileHeader)
    (from_ : List Nat) (numBytes position : Nat) : Option (Nat × FS) :=
  if numBytes = 0 then none
  else
    let fileLength := hdr.FileLength
    if position ≥ fileLength then some (0, fs)
    else
      let pr :=
        if position + numBytes > fileLength then
          let add_size := numBytes - (fileLength - position)
          let e := FileSystem.Expand fs sector add_size
          if e.1 then (numBytes, e.2) else (fileLength - position, e.2)
        else (numBytes, fs)
      let n := pr.1
      let fs1 := pr.2
      let firstSector := position / SECTOR_SIZE
      let lastSector := (position + n - 1) / SECTOR_SIZE
      let numS := 1 + lastSector - firstSector
      let firstAligned := position == firstSector * SECTOR_SIZE
      let lastAligned := position + n == (lastSector + 1) * SECTOR_SIZE
      let buf0 : List Nat := List.replicate (numS * SECTOR_SIZE) 0
      let buf1 :=
        if !firstAligned then
          splice buf0 0
            (Internal_ReadAt fs1.disk hdr SECTOR_SIZE
              (firstSector * SECTOR_SIZE)).2
        else buf0
      let buf2 :=
        if !lastAligned && (firstSector != lastSector || firstAligned) then
          splice buf1 ((lastSector - firstSector) * SECTOR_SIZE)
            (Internal_ReadAt fs1.disk hdr SECTOR_SIZE
              (lastSector * SECTOR_SIZE)).2
        else buf1
      let wbuf := splice buf2 (position - firstSector * SECTOR_SIZE)
        (from_.take n)
      some (n, { fs1 with disk := writeLoop fs1.disk hdr firstSector numS wbuf })

/-- `OpenFile::ReadAt` (open_file.cc): refetch the header, then perform the
internal read.  The reader-slot protocol around the internal read is
modelled separately as the `NodeSync` transition system; in this
sequential model the entry and exit sections complete and do not affect
the returned bytes. -/
def OpenFile.ReadAt (fs : FS) (f : OpenFile) (numBytes position : Nat) :
    Nat × List Nat × OpenFile :=
  let h := fs.disk.headers f.sector
  let r := Internal_ReadAt fs.disk h numBytes position
  (r.1, r.2, { f with hdr := h })

/-- `OpenFile::WriteAt` (open_file.cc): if the write reaches past
`Length()`, ask the facade to `Expand` by `(position+numBytes) - Length() + 1`
bytes and clamp `numBytes` (an `unsigned` subtraction) on failure; then
`ASSERT(position + numBytes <= Length())` (an abort, `none`, when it
fails), refetch the header and perform the internal write under the
writer semaphore (modelled by `NodeSync`). -/
def OpenFile.WriteAt (fs : FS) (f : OpenFile) (from_ : List Nat)
    (numBytes position : Nat) : Option (Nat × FS × OpenFile) :=
  let len0 := (fs.disk.headers f.sector).FileLength
  let pr :=
    if len0 < position + numBytes then
      let size := position + numBytes - len0 + 1
      let e := FileSystem.Expand fs f.sector size
      if e.1 then (numBytes, e.2) else (usub len0 position, e.2)
    else (numBytes, fs)
  let numBytes1 := pr.1
  let fs1 := pr.2
  let len1 := (fs1.disk.headers f.sector).FileLength
  if (position + numBytes1) % W32 ≤ len1 then
    let h := fs1.disk.headers f.sector
    match Internal_WriteAt fs1 f.sector h from_ numBytes1 position with
    | some (r, fs2) => some (r, fs2, { f with hdr := h })
    | none => none
  else none

/-- `OpenFile::Read` (open_file.cc): `ASSERT(numBytes > 0)` (abort is
`none`), read at the seek cursor, advance the cursor by the returned
count. -/
def OpenFile.Read (fs : FS) (f : OpenFile) (numBytes : Nat) :
    Option (Nat × List Nat × OpenFile) :=
  if numBytes = 0 then none
  else
    let r := OpenFile.ReadAt fs f numBytes f.seekPosition
    some (r.1, r.2.1, { r.2.2 with seekPosition := r.2.2.seekPosition + r.1 })

/-- `OpenFile::Write` (open_file.cc): `ASSERT(numBytes > 0)` (abort is
`none`), write at the seek cursor, advance the cursor by the returned
count. -/
def OpenFile.Write (fs : FS) (f : OpenFile) (from_ : List Nat)
    (numBytes : Nat) : Option (Nat × FS × OpenFile) :=
  if numBytes = 0 then none
  else
    (OpenFile.WriteAt fs f from_ numBytes f.seekPosition).map
      (fun r => (r.1, r.2.1, { r.2.2 with seekPosition := r.2.2.seekPosition + r.1 }))

-- ------------------------------------------------------------------
-- The file-system facade (translated from file_system.cc).
-- ------------------------------------------------------------------

/-- `FileSystem::Create` (file_system.cc): resolve the parent, reject
existing names, pick a header sector from the free map, add the directory
entry, allocate the data sectors; only when every step succeeds are the
header, the free map and the parent directory written back to disk — on
any failure the in-memory copies are discarded and the call returns
false. -/
def FileSystem.Create (fs : FS) (wd _path : List Char) (initialSize : Nat) :
    Bool × FS :=
  let path := checkRoot wd _path
  match FileSystem.OpenPath fs wd path with
  | none => (false, fs)
  | some (directory, dir_sector) =>
    let name := getName path
    if Directory.findI directory name true != -1 ||
        Directory.findI directory name false != -1 then
      (false, fs)
    else
      match Bitmap.findAndMark fs.disk.fmap with
      | none => (false, fs)
      | some (sector, freeMap1) =>
        match Directory.add directory name sector false with
        | none => (false, fs)
        | some directory1 =>
          match FileHeader.Allocate freeMap1 initialSize with
          | none => (false, fs)
          | some (header, freeMap2) =>
            (true,
             { fs with disk := { fs.disk with
                 headers := Function.update fs.disk.headers sector header,
                 fmap := freeMap2,
                 dirs := Function.update fs.disk.dirs dir_sector directory1 } })

/-- `FileSystem::Open` (file_system.cc): resolve the parent and look up the
leaf as a non-directory.  The source performs `directory->Find(name)`
without checking `OpenPath`'s result for null, so a missing intermediate
component dereferences a null pointer: modelled as `none` (crash).  A
found leaf is accepted only when its sector is above the two reserved
sectors and the node's `remove` flag is clear; then `users` is
incremented (the node is created if absent) and a fresh handle
returned. -/
def FileSystem.Open (fs : FS) (wd _path : List Char) :
    Option (Option OpenFile × FS) :=
  let path := checkRoot wd _path
  match FileSystem.OpenPath fs wd path with
  | none => none
  | some (directory, _) =>
    let name := getName path
    let sector := Directory.findI directory name false
    if sector > 1 then
      let s := sector.toNat
      let pr :=
        match Filetable.find fs.filetable s with
        | some node => (node, fs.filetable)
        | none => Filetable.add_file fs.filetable name s
      if pr.1.remove == false then
        some (some (OpenFile.mk0 fs s),
              { fs with filetable :=
                  (Filetable.mapNode pr.2 s (fun nd => { nd with users := nd.users + 1 })) })
      else some (none, { fs with filetable := pr.2 })
    else some (none, fs)

/-- Modelled from the spec: `Directory::Clean(freeMap)` recursively
deallocates every file's data blocks and header sector referenced from
this directory (directory.cc is not in the repository snapshot).  The
recursion is fuel-bounded; the fuel used below exceeds any possible
nesting on a `NUM_SECTORS` disk. -/
def cleanGo (d : Disk) : Nat → List DirEntry → Bitmap → Bitmap
  | _, [], fm => fm
  | fuel, e :: rest, fm =>
    let fmA :=
      if e.inUse then
        let fm1 :=
          if e.isDir then
            match fuel with
            | 0 => fm
            | Nat.succ f => cleanGo d f (d.dirs e.sector) fm
          else fm
        Bitmap.clear (FileHeader.Deallocate (d.headers e.sector) fm1) e.sector
      else fm
    cleanGo d fuel rest fmA
  termination_by fuel l => (fuel, l)

/-- Fuel bound for `cleanGo`. -/
def CLEAN_FUEL : Nat := NUM_SECTORS * NUM_DIR_ENTRIES

/-- `FileSystem::RemoveDir` (file_system.cc): a path that resolves to the
root returns false before touching any state; otherwise the entry is
removed from its parent, the subtree is `Clean`ed, the directory's own
header sector freed, and parent plus free map written back.  A null
parent from `OpenPath` is dereferenced by the source (`none`, crash). -/
def FileSystem.RemoveDir (fs : FS) (wd _path : List Char) :
    Option (Bool × FS) :=
  let path := checkRoot wd _path
  if path == ['/'] then some (false, fs)
  else
    match FileSystem.OpenPath fs wd path with
    | none => none
    | some (directory, dir_sector) =>
      let name := getName path
      let freeMap := fs.disk.fmap
      let pr := Directory.removeName directory name
      let folder_sector := pr.1
      let directory1 := pr.2
      let fm2 :=
        if folder_sector != 0 then
          let folder := fs.disk.dirs folder_sector
          let fmA := cleanGo fs.disk CLEAN_FUEL folder freeMap
          let fmB := FileHeader.Deallocate (fs.disk.headers folder_sector) fmA
          Bitmap.clear fmB folder_sector
        else freeMap
      some (true,
        { fs with disk := { fs.disk with
            fmap := fm2,
            dirs := Function.update fs.disk.dirs dir_sector directory1 } })

/-- `FileSystem::Remove` (file_system.cc): resolve the parent (the source
dereferences a null parent: `none`, crash) and look up the leaf; a
directory leaf is delegated to `RemoveDir`; a missing leaf returns false.
If an open-file node exists with `users != 0`, only its `remove` flag is
set (deferred unlink) — the parent directory is not modified.  Otherwise
the entry is removed from the parent, the data blocks and the header
sector are freed, free map and parent are written back, and the node is
dropped. -/
def FileSystem.Remove (fs : FS) (wd _path : List Char) : Option (Bool × FS) :=
  let path := checkRoot wd _path
  match FileSystem.OpenPath fs wd path with
  | none => none
  | some (directory, dir_sector) =>
    let name := getName path
    let sector := Directory.findI directory name false
    if sector < 0 then
      if Directory.findI directory name true < 0 then some (false, fs)
      else FileSystem.RemoveDir fs wd path
    else
      let s := sector.toNat
      let core : Bool × FS :=
        let directory1 := (Directory.removeName directory name).2
        let fm1 := FileHeader.Deallocate (fs.disk.headers s) fs.disk.fmap
        let fm2 := Bitmap.clear fm1 s
        (true,
         { fs with
             disk := { fs.disk with
               fmap := fm2,
               dirs := Function.update fs.disk.dirs dir_sector directory1 },
             filetable := Filetable.removeNode fs.filetable s })
      match Filetable.find fs.filetable s with
      | some node =>
        if node.users != 0 then
          some (true,
            { fs with filetable :=
                (Filetable.mapNode fs.filetable s (fun nd => { nd with remove := true })) })
        else some core
      | none => some core

/-- `OpenFile::~OpenFile` (open_file.cc): decrement the node's `users`; when
the `remove` flag is set and no users remain, invoke the facade's
`Remove` on the node's stored (leaf) name, which frees the blocks.  A
crash inside that `Remove` propagates (`none`). -/
def OpenFile.close (fs : FS) (wd : List Char) (sec : Nat) : Option FS :=
  match Filetable.find fs.filetable sec with
  | none => some fs
  | some node =>
    let fs1 : FS :=
      { fs with filetable :=
          (Filetable.mapNode fs.filetable sec (fun nd => { nd with users := nd.users - 1 })) }
    if node.remove && node.users - 1 ≤ 0 then
      (FileSystem.Remove fs1 wd node.name).map (fun r => r.2)
    else some fs1

-- ------------------------------------------------------------------
-- The freshly formatted file system (the `FileSystem(format=true)`
-- constructor of file_system.cc).
-- ------------------------------------------------------------------

/-- A directory with every slot free. -/
def emptyDirectory : Directory :=
  List.replicate NUM_DIR_ENTRIES ⟨false, false, [], 0⟩

/-- The header value of an unwritten header sector. -/
def defaultHeader : FileHeader := ⟨0, []⟩

/-- The file system produced by the `format=true` constructor: sectors 0
and 1 marked, data sectors allocated for the free-map and root-directory
files, both headers written, the empty root directory and the resulting
bitmap written back.  The two `Allocate` calls are asserted to succeed by
the source; `Option.getD` reflects that. -/
def formatFS : FS :=
  let fm0 : Bitmap := List.replicate NUM_SECTORS false
  let fm1 := Bitmap.mark (Bitmap.mark fm0 FREE_MAP_SECTOR) DIRECTORY_SECTOR
  let a1 := (FileHeader.Allocate fm1 FREE_MAP_FILE_SIZE).getD
    (defaultHeader, fm1)
  let mapHeader := a1.1
  let a2 := (FileHeader.Allocate a1.2 DIRECTORY_FILE_SIZE).getD
    (defaultHeader, a1.2)
  let dirHeader := a2.1
  ⟨⟨fun _ => List.replicate SECTOR_SIZE 0,
    fun s => if s = FREE_MAP_SECTOR then mapHeader
             else if s = DIRECTORY_SECTOR then dirHeader
             else defaultHeader,
    fun _ => emptyDirectory,
    a2.2⟩, []⟩

-- ------------------------------------------------------------------
-- The scheduler (translated from scheduler.cc; the sorted list it relies
-- on is modelled from the spec).
-- ------------------------------------------------------------------

/-- A kernel thread as the scheduler sees it: an identity and a priority. -/
structure KThread where
  id : Nat
  priority : Int
deriving DecidableEq

/-- Modelled from the spec: `List::SortedInsert(thread, priority)` —
stable insertion sorted by the priority key in ascending key order (the
classic list the scheduler relies on); equal keys keep arrival order. -/
def sortedInsert (t : KThread) : List KThread → List KThread
  | [] => [t]
  | x :: xs =>
    if t.priority < x.priority then t :: x :: xs
    else x :: sortedInsert t xs

/-- The three ready queues (`readyList[0..2]`, scheduler.cc). -/
structure Scheduler where
  ready0 : List KThread
  ready1 : List KThread
  ready2 : List KThread
deriving DecidableEq

/-- The freshly constructed scheduler: three empty queues. -/
def emptySched : Scheduler := ⟨[], [], []⟩

/-- The tier a priority is routed to by `ReadyToRun`'s branches. -/
def tierOf (p : Int) : Nat := if p < 20 then 0 else if p = 20 then 1 else 2

/-- `Scheduler::ReadyToRun` (scheduler.cc): sorted-insert into tier 0 when
priority < 20, tier 1 when priority == 20, tier 2 otherwise. -/
def Scheduler.readyToRun (s : Scheduler) (t : KThread) : Scheduler :=
  if t.priority < 20 then { s with ready0 := sortedInsert t s.ready0 }
  else if t.priority == 20 then { s with ready1 := sortedInsert t s.ready1 }
  else { s with ready2 := sortedInsert t s.ready2 }

/-- `Scheduler::FindNextToRun` (scheduler.cc): pop the head of the first
non-empty queue scanning tiers 2, 1, 0; null when all are empty. -/
def Scheduler.findNextToRun (s : Scheduler) : Option KThread × Scheduler :=
  match s.ready2 with
  | t :: rest => (some t, { s with ready2 := rest })
  | [] =>
    match s.ready1 with
    | t :: rest => (some t, { s with ready1 := rest })
    | [] =>
      match s.ready0 with
      | t :: rest => (some t, { s with ready0 := rest })
      | [] => (none, s)

-- ------------------------------------------------------------------
-- The per-node reader/writer protocol of OpenFile::ReadAt/WriteAt
-- (open_file.cc), as a transition system.  One state per open-file node:
-- the `lectores` counter, the value of the `Can_Write` semaphore, and the
-- number of writers inside Internal_WriteAt.  Each constructor is one
-- complete entry or exit section; the reader sections execute under the
-- `Can_Read` mutex and are therefore atomic with respect to each other.
-- ------------------------------------------------------------------

/-- The synchronization state of one open-file node. -/
structure NodeSync where
  lectores : Nat
  canWrite : Nat
  writers : Nat
deriving DecidableEq

/-- A node's synchronization state at creation: no readers, `Can_Write`
available, no writer inside. -/
def initSync : NodeSync := ⟨0, 1, 0⟩

/-- One entry or exit section of `ReadAt`/`WriteAt` (open_file.cc):
a first reader acquires `Can_Write` (`lectores` 0 to 1), further readers
only increment; the last leaving reader releases `Can_Write` (`lectores`
back to 0); a writer holds `Can_Write` for the whole of
`Internal_WriteAt`. -/
inductive SyncStep : NodeSync → NodeSync → Prop
  | readerEnterFirst (s : NodeSync) (h0 : s.lectores = 0) (hw : 1 ≤ s.canWrite) :
      SyncStep s ⟨1, s.canWrite - 1, s.writers⟩
  | readerEnterNext (s : NodeSync) (h0 : 0 < s.lectores) :
      SyncStep s ⟨s.lectores + 1, s.canWrite, s.writers⟩
  | readerExitLast (s : NodeSync) (h1 : s.lectores = 1) :
      SyncStep s ⟨0, s.canWrite + 1, s.writers⟩
  | readerExitMore (s : NodeSync) (h1 : 1 < s.lectores) :
      SyncStep s ⟨s.lectores - 1, s.canWrite, s.writers⟩
  | writerEnter (s : NodeSync) (hw : 1 ≤ s.canWrite) :
      SyncStep s ⟨s.lectores, s.canWrite - 1, s.writers + 1⟩
  | writerExit (s : NodeSync) (hw : 1 ≤ s.writers) :
      SyncStep s ⟨s.lectores, s.canWrite + 1, s.writers - 1⟩

/-- The node states reachable from `initSync` by entry/exit sections. -/
inductive SyncReach : NodeSync → Prop
  | init : SyncReach initSync
  | step (s s' : NodeSync) : SyncReach s → SyncStep s s' → SyncReach s'

-- ------------------------------------------------------------------
-- Concrete fixtures used by the theorems below.
-- ------------------------------------------------------------------

/-- The root path. -/
def rootPath : List Char := ['/']

/-- The path of the file /a used by the round-trip and unlink laws. -/
def aPath : List Char := ['/', 'a']

/-- The leaf name of /a. -/
def aName : List Char := ['a']

/-- A path whose intermediate component does not exist. -/
def nosuchPath : List Char := ['/', 'q', '/', 'f']

/-- Sectors needed for `n` bytes. -/
def kOf (n : Nat) : Nat := divRoundUp n SECTOR_SIZE

/-- A bitmap whose first `m` bits are set and the rest clear. -/
def fmBlock (m : Nat) : Bitmap :=
  List.replicate m true ++ List.replicate (NUM_SECTORS - m) false

/-- The root directory after /a was created at header sector 5. -/
def dirA5 : Directory := emptyDirectory.set 0 ⟨true, false, aName, 5⟩

/-- The file system after `Create formatFS "/a" N` succeeded: header sector
5 holds `N` bytes over the consecutive data sectors starting at 6. -/
def fsAfterCreate (N : Nat) : FS :=
  { formatFS with disk := { formatFS.disk with
      headers := Function.update formatFS.disk.headers 5 ⟨N, List.range' 6 (kOf N)⟩,
      fmap := List.replicate (6 + kOf N) true ++ List.replicate (58 - kOf N) false,
      dirs := Function.update formatFS.disk.dirs 1 dirA5 } }

/-- The length /a ends up with after writing `lenB` bytes at offset 0 into
an `N`-byte file: `WriteAt` expands by one byte more than needed. -/
def lenAfterWrite (N lenB : Nat) : Nat := if N < lenB then lenB + 1 else N

/-- The handle returned by the first `Open` of /a after `Create`: sector 5,
cursor 0, the freshly created header cached. -/
def hOf (N : Nat) : OpenFile := ⟨5, 0, ⟨N, List.range' 6 (kOf N)⟩⟩

/-- The file system after that first `Open`: one node for /a with one
user. -/
def fs2Of (N : Nat) : FS :=
  { fsAfterCreate N with filetable := [⟨aName, 5, 1, false⟩] }

-- The C1 witness chain at N = 0, B = [7].

/-- C1 witness chain: state after Create. -/
def c1fs1w : FS := (FileSystem.Create formatFS rootPath aPath 0).2

/-- C1 witness chain: result of the first Open. -/
def c1op1w : Option (Option OpenFile × FS) := FileSystem.Open c1fs1w rootPath aPath

/-- C1 witness chain: state after the first Open. -/
def c1fs2w : FS :=
  match c1op1w with
  | some (_, fs) => fs
  | none => c1fs1w

/-- C1 witness chain: the first handle. -/
def c1hw : OpenFile :=
  match c1op1w with
  | some (some h, _) => h
  | _ => OpenFile.mk0 c1fs1w 5

/-- C1 witness chain: result of the Write. -/
def c1wr : Option (Nat × FS × OpenFile) := OpenFile.Write c1fs2w c1hw [7] 1

/-- C1 witness chain: state after the Write. -/
def c1fs3w : FS :=
  match c1wr with
  | some (_, fs, _) => fs
  | none => c1fs2w

/-- C1 witness chain: the handle after the Write. -/
def c1h3w : OpenFile :=
  match c1wr with
  | some (_, _, h) => h
  | none => c1hw

/-- C1 witness chain: state after the Close. -/
def c1fs4w : FS := (OpenFile.close c1fs3w rootPath c1h3w.sector).getD c1fs3w

/-- C1 witness chain: result of the second Open. -/
def c1op2w : Option (Option OpenFile × FS) := FileSystem.Open c1fs4w rootPath aPath

/-- C1 witness chain: state after the second Open. -/
def c1fs5w : FS :=
  match c1op2w with
  | some (_, fs) => fs
  | none => c1fs4w

/-- C1 witness chain: the reopened handle. -/
def c1h2w : OpenFile :=
  match c1op2w with
  | some (some h, _) => h
  | _ => OpenFile.mk0 c1fs4w 5

/-- C1 witness chain: result of the Read. -/
def c1rdw : Option (Nat × List Nat × OpenFile) := OpenFile.Read c1fs5w c1h2w 1

/-- C1 witness chain: the bytes read back. -/
def c1Rw : List Nat :=
  match c1rdw with
  | some (_, R, _) => R
  | none => []

/-- C1 witness chain: the read count. -/
def c1rw : Nat :=
  match c1rdw with
  | some (r, _, _) => r
  | none => 0

/-- C1 witness chain: the handle after the Read. -/
def c1h2bw : OpenFile :=
  match c1rdw with
  | some (_, _, h) => h
  | none => c1h2w

-- The C2 witness chain: /a of size 1, opened once.

/-- C2 witness chain: state after Create "/a" 1. -/
def c2fsAw : FS := (FileSystem.Create formatFS rootPath aPath 1).2

/-- C2 witness chain: state after Open "/a" (one live handle). -/
def c2fsBw : FS :=
  match FileSystem.Open c2fsAw rootPath aPath with
  | some (_, fs) => fs
  | none => c2fsAw

-- The C3 counterexample fixture: a one-sector file of 127 bytes.

/-- C3 fixture: file at header sector 5, 127 bytes in data sector 6,
sectors 7 and up free. -/
def c3FS : FS :=
  ⟨⟨fun _ => List.replicate SECTOR_SIZE 0,
    fun s => if s = 5 then ⟨127, [6]⟩ else defaultHeader,
    fun _ => emptyDirectory,
    List.replicate 7 true ++ List.replicate 57 false⟩, []⟩

/-- C3 fixture: a handle on that file. -/
def c3File : OpenFile := ⟨5, 0, ⟨127, [6]⟩⟩

-- The C7 counterexample fixture: a full disk, so Expand must fail.

/-- C7 fixture: file of exactly 128 bytes at header sector 5, data sector
6, with the free map completely full. -/
def c7FS : FS :=
  ⟨⟨fun _ => List.replicate SECTOR_SIZE 0,
    fun s => if s = 5 then ⟨128, [6]⟩ else defaultHeader,
    fun _ => emptyDirectory,
    List.replicate NUM_SECTORS true⟩, []⟩

/-- C7 fixture: a handle on that file. -/
def c7File : OpenFile := ⟨5, 0, ⟨128, [6]⟩⟩

-- Scheduler fixtures.

/-- C4 witness: the ready set {5, 20, 25}. -/
def c4s : Scheduler :=
  [(⟨0, 5⟩ : KThread), ⟨1, 20⟩, ⟨2, 25⟩].foldl Scheduler.readyToRun emptySched

/-- C5 counterexample: T1 (id 1, priority 10) made ready before T2 (id 2,
priority 5); both land in tier 0. -/
def c5s : Scheduler :=
  Scheduler.readyToRun (Scheduler.readyToRun emptySched ⟨1, 10⟩) ⟨2, 5⟩

-- ------------------------------------------------------------------
-- Theorems.
-- ------------------------------------------------------------------

/-- Claim C10: the root directory can never be removed — whenever the path
resolves to "/" (directly or through the working directory), `RemoveDir`
returns false and the state, hence every directory entry, header and
bitmap bit, is unchanged. -/
theorem c10_root_not_removable (fs : FS) (wd _path : List Char)
    (hroot : checkRoot wd _path = ['/']) :
    FileSystem.RemoveDir fs wd _path = some (false, fs) := by
  simp only [FileSystem.RemoveDir, hroot]
  rfl

/-- Witness for C10 at the concrete call `RemoveDir "/"`. -/
theorem c10_witness :
    checkRoot rootPath ['/'] = ['/'] ∧
    FileSystem.RemoveDir formatFS rootPath ['/'] = some (false, formatFS) :=
  ⟨rfl, c10_root_not_removable formatFS rootPath ['/'] rfl⟩

/-- Claim C6: whenever `Create` fails — parent unresolved, name taken, no
free header sector, no free directory slot, or not enough data sectors —
it returns false and the on-disk free bitmap and directories are exactly
as before the call; they are only written back when every step
succeeds. -/
theorem c6_create_atomic (fs : FS) (wd _path : List Char) (size : Nat)
    (fs' : FS)
    (hfail : FileSystem.Create fs wd _path size = (false, fs')) :
    fs' = fs ∧ fs'.disk.fmap = fs.disk.fmap ∧ fs'.disk.dirs = fs.disk.dirs := by
  have heq : fs' = fs := by
    simp only [FileSystem.Create] at hfail
    repeat' split at hfail
    all_goals injection hfail with h1 h2
    all_goals first
      | exact h2.symm
      | simp at h1
  exact ⟨heq, by rw [heq], by rw [heq]⟩

/-- Witness for C6: creating a 31-sector file on the fresh disk fails (31 >
NUM_DIRECT) and leaves the disk untouched. -/
theorem c6_witness :
    FileSystem.Create formatFS rootPath aPath 3968 = (false, formatFS) ∧
    (FileSystem.Create formatFS rootPath aPath 3968).2.disk.fmap
      = formatFS.disk.fmap :=
  ⟨rfl, (c6_create_atomic formatFS rootPath aPath 3968
      (FileSystem.Create formatFS rootPath aPath 3968).2 rfl).2.1⟩

/-- Claim C8 (the failing case): on a path whose intermediate component is
missing, `OpenPath` returns the null directory, and `FileSystem::Open`
then calls `directory->Find` on that null pointer — a null dereference
(modelled as `none`), not the null return the claim describes. -/
theorem c8_open_nullderef :
    FileSystem.OpenPath formatFS rootPath (checkRoot rootPath nosuchPath)
      = none ∧
    FileSystem.Open formatFS rootPath nosuchPath = none :=
  ⟨rfl, rfl⟩

/-- Counterexample to claim C3: the file holds 127 bytes (1 sector); writing
1 byte at offset 127 = Length needs `divRoundUp 128 SECTOR_SIZE = 1`
sector in total, yet `WriteAt` expands by N+1 = 2 bytes, leaving a file of
129 bytes over 2 sectors — one sector more than "exactly enough", and a
length different from Length+N. -/
theorem c3_extend_cx :
    (c3FS.disk.headers 5).FileLength = 127 ∧
    divRoundUp (127 + 1) SECTOR_SIZE = 1 ∧
    (OpenFile.WriteAt c3FS c3File [9] 1 127).map
      (fun r => ((r.2.1.disk.headers 5).numBytes,
                 (r.2.1.disk.headers 5).dataSectors.length))
      = some (129, 2) :=
  ⟨rfl, rfl, rfl⟩

/-- Counterexample to claim C5: threads of priorities 10 and 5 both land in
tier 0; T1 (id 1, priority 10) was made ready before T2 (id 2, priority
5), yet `FindNextToRun` pops T2 first — the tier is sorted by priority,
not FIFO by arrival. -/
theorem c5_fifo_cx :
    (⟨1, 10⟩ : KThread).priority < 20 ∧ (⟨2, 5⟩ : KThread).priority < 20 ∧
    (Scheduler.findNextToRun c5s).1 = some ⟨2, 5⟩ ∧
    ((⟨2, 5⟩ : KThread) ≠ (⟨1, 10⟩ : KThread)) := by
  refine ⟨by decide, by decide, rfl, by decide⟩

/-- Counterexample to claim C7: with the file exactly `Length = 128` bytes
and the disk full (so `Expand` fails), `WriteAt` at `position = Length`
clamps the count to 0 and `Internal_WriteAt`'s `ASSERT(numBytes > 0)`
aborts — the call traps instead of returning a short count. -/
theorem c7_truncated_cx :
    (c7FS.disk.headers 5).FileLength = 128 ∧
    (FileSystem.Expand c7FS 5 6).1 = false ∧
    OpenFile.WriteAt c7FS c7File [1, 2, 3, 4, 5] 5 128 = none :=
  ⟨rfl, rfl, rfl⟩

/-- Claim C9: reachable node states satisfy the reader/writer invariant:
`canWrite` plus the writers inside `Internal_WriteAt` plus the reader
group's hold on `canWrite` always account for exactly one permit, so
whenever `lectores > 0` the `Can_Write` semaphore is taken by the readers
and no writer is inside `Internal_WriteAt`.  The `SyncStep` relation is
the entry/exit protocol of `OpenFile::ReadAt`/`WriteAt`: a reader going 0
to 1 acquires `Can_Write`, a reader returning to 0 releases it. -/
theorem c9_rw_invariant (s : NodeSync) (hr : SyncReach s) :
    s.canWrite + s.writers + (if 0 < s.lectores then 1 else 0) = 1 ∧
    (0 < s.lectores → s.canWrite = 0 ∧ s.writers = 0) := by
  have main : s.canWrite + s.writers + (if 0 < s.lectores then 1 else 0) = 1 := by
    induction hr with
    | init => decide
    | step s s' _ hstep ih =>
      cases hstep <;> dsimp only at * <;> split_ifs at * <;> omega
  refine ⟨main, fun hl => ?_⟩
  rw [if_pos hl] at main
  omega

/-- Witness for C9 at the state reached by one reader entry. -/
theorem c9_witness :
    SyncReach (⟨1, 0, 0⟩ : NodeSync) ∧
    (⟨1, 0, 0⟩ : NodeSync).canWrite = 0 ∧ (⟨1, 0, 0⟩ : NodeSync).writers = 0 := by
  have hre : SyncReach (⟨1, 0, 0⟩ : NodeSync) :=
    SyncReach.step _ _ SyncReach.init
      (SyncStep.readerEnterFirst initSync rfl (by decide))
  exact ⟨hre, (c9_rw_invariant _ hre).2 (by decide)⟩

-- Scheduler helper lemmas.

/-- Tier-0 component of `ReadyToRun`. -/
theorem readyToRun_ready0 (s : Scheduler) (t : KThread) :
    (Scheduler.readyToRun s t).ready0 =
      if t.priority < 20 then sortedInsert t s.ready0 else s.ready0 := by
  unfold Scheduler.readyToRun
  split_ifs <;> simp_all

/-- Tier-1 component of `ReadyToRun`. -/
theorem readyToRun_ready1 (s : Scheduler) (t : KThread) :
    (Scheduler.readyToRun s t).ready1 =
      if t.priority = 20 then sortedInsert t s.ready1 else s.ready1 := by
  unfold Scheduler.readyToRun
  split_ifs <;> simp_all

/-- Tier-2 component of `ReadyToRun`. -/
theorem readyToRun_ready2 (s : Scheduler) (t : KThread) :
    (Scheduler.readyToRun s t).ready2 =
      if 20 < t.priority then sortedInsert t s.ready2 else s.ready2 := by
  unfold Scheduler.readyToRun
  split_ifs <;> simp_all <;> omega

/-- Folding `ReadyToRun` touches tier 0 exactly with the threads of
priority below 20, in arrival order. -/
theorem foldl_rtr_ready0 (l : List KThread) :
    ∀ s : Scheduler, (l.foldl Scheduler.readyToRun s).ready0 =
      (l.filter (fun t => decide (t.priority < 20))).foldl
        (fun q t => sortedInsert t q) s.ready0 := by
  induction l with
  | nil => intro s; rfl
  | cons t l ih =>
    intro s
    simp only [List.foldl_cons, List.filter_cons, decide_eq_true_eq]
    by_cases h : t.priority < 20
    · rw [if_pos h, ih, List.foldl_cons, readyToRun_ready0, if_pos h]
    · rw [if_neg h, ih, readyToRun_ready0, if_neg h]

/-- Folding `ReadyToRun` touches tier 1 exactly with the threads of
priority 20, in arrival order. -/
theorem foldl_rtr_ready1 (l : List KThread) :
    ∀ s : Scheduler, (l.foldl Scheduler.readyToRun s).ready1 =
      (l.filter (fun t => decide (t.priority = 20))).foldl
        (fun q t => sortedInsert t q) s.ready1 := by
  induction l with
  | nil => intro s; rfl
  | cons t l ih =>
    intro s
    simp only [List.foldl_cons, List.filter_cons, decide_eq_true_eq]
    by_cases h : t.priority = 20
    · rw [if_pos h, ih, List.foldl_cons, readyToRun_ready1, if_pos h]
    · rw [if_neg h, ih, readyToRun_ready1, if_neg h]

/-- Folding `ReadyToRun` touches tier 2 exactly with the threads of
priority above 20, in arrival order. -/
theorem foldl_rtr_ready2 (l : List KThread) :
    ∀ s : Scheduler, (l.foldl Scheduler.readyToRun s).ready2 =
      (l.filter (fun t => decide (20 < t.priority))).foldl
        (fun q t => sortedInsert t q) s.ready2 := by
  induction l with
  | nil => intro s; rfl
  | cons t l ih =>
    intro s
    simp only [List.foldl_cons, List.filter_cons, decide_eq_true_eq]
    by_cases h : 20 < t.priority
    · rw [if_pos h, ih, List.foldl_cons, readyToRun_ready2, if_pos h]
    · rw [if_neg h, ih, readyToRun_ready2, if_neg h]

/-- A stable insert behind every existing element: when nothing in the list
has a strictly larger priority, `SortedInsert` appends. -/
theorem sortedInsert_all_le (t : KThread) (l : List KThread)
    (h : ∀ x ∈ l, ¬ t.priority < x.priority) : sortedInsert t l = l ++ [t] := by
  induction l with
  | nil => rfl
  | cons x xs ih =>
    simp only [sortedInsert]
    rw [if_neg (h x (by simp))]
    rw [ih (fun y hy => h y (by simp [hy]))]
    rfl

/-- Claim C4: a thread is routed to tier 0 when its priority is below 20,
tier 1 at exactly 20, tier 2 above (first conjunct); making threads of
priorities {5, 20, 25} ready in any arrival order, successive
`FindNextToRun` calls pop 25, then 20, then 5, then null (second
conjunct); and `FindNextToRun` returns null exactly when all three tiers
are empty (third conjunct). -/
theorem c4_sched_priority :
    (∀ (s : Scheduler) (t : KThread),
      (Scheduler.readyToRun s t).ready0 =
        (if tierOf t.priority = 0 then sortedInsert t s.ready0 else s.ready0) ∧
      (Scheduler.readyToRun s t).ready1 =
        (if tierOf t.priority = 1 then sortedInsert t s.ready1 else s.ready1) ∧
      (Scheduler.readyToRun s t).ready2 =
        (if tierOf t.priority = 2 then sortedInsert t s.ready2 else s.ready2)) ∧
    (∀ (a b c : KThread) (l : List KThread),
      a.priority = 5 → b.priority = 20 → c.priority = 25 → l.Perm [a, b, c] →
      (Scheduler.findNextToRun (l.foldl Scheduler.readyToRun emptySched)).1
          = some c ∧
      (Scheduler.findNextToRun
          (Scheduler.findNextToRun
            (l.foldl Scheduler.readyToRun emptySched)).2).1 = some b ∧
      (Scheduler.findNextToRun
          (Scheduler.findNextToRun
            (Scheduler.findNextToRun
              (l.foldl Scheduler.readyToRun emptySched)).2).2).1 = some a ∧
      (Scheduler.findNextToRun
          (Scheduler.findNextToRun
            (Scheduler.findNextToRun
              (Scheduler.findNextToRun
                (l.foldl Scheduler.readyToRun emptySched)).2).2).2).1 = none) ∧
    (∀ s : Scheduler, (Scheduler.findNextToRun s).1 = none ↔
      s.ready0 = [] ∧ s.ready1 = [] ∧ s.ready2 = []) := by
  have tier0 : ∀ p : Int, tierOf p = 0 ↔ p < 20 := by
    intro p; unfold tierOf
    split_ifs with hp1 hp2
    · simp [hp1]
    · simp; omega
    · simp; omega
  have tier1 : ∀ p : Int, tierOf p = 1 ↔ p = 20 := by
    intro p; unfold tierOf
    split_ifs with hp1 hp2
    · simp; omega
    · simp [hp2]
    · simp; omega
  have tier2 : ∀ p : Int, tierOf p = 2 ↔ 20 < p := by
    intro p; unfold tierOf
    split_ifs with hp1 hp2
    · simp; omega
    · simp; omega
    · simp; omega
  refine ⟨?_, ?_, ?_⟩
  · intro s t
    refine ⟨?_, ?_, ?_⟩
    · rw [readyToRun_ready0]
      by_cases h : t.priority < 20
      · rw [if_pos h, if_pos ((tier0 t.priority).mpr h)]
      · rw [if_neg h, if_neg (fun hc => h ((tier0 t.priority).mp hc))]
    · rw [readyToRun_ready1]
      by_cases h : t.priority = 20
      · rw [if_pos h, if_pos ((tier1 t.priority).mpr h)]
      · rw [if_neg h, if_neg (fun hc => h ((tier1 t.priority).mp hc))]
    · rw [readyToRun_ready2]
      by_cases h : 20 < t.priority
      · rw [if_pos h, if_pos ((tier2 t.priority).mpr h)]
      · rw [if_neg h, if_neg (fun hc => h ((tier2 t.priority).mp hc))]
  · intro a b c l ha hb hc hperm
    have hf0 : l.filter (fun t => decide (t.priority < 20)) = [a] := by
      have hp := hperm.filter (fun t => decide (t.priority < 20))
      simp only [List.filter_cons, List.filter_nil, ha, hb, hc] at hp
      norm_num at hp
      exact hp
    have hf1 : l.filter (fun t => decide (t.priority = 20)) = [b] := by
      have hp := hperm.filter (fun t => decide (t.priority = 20))
      simp only [List.filter_cons, List.filter_nil, ha, hb, hc] at hp
      norm_num at hp
      exact hp
    have hf2 : l.filter (fun t => decide (20 < t.priority)) = [c] := by
      have hp := hperm.filter (fun t => decide (20 < t.priority))
      simp only [List.filter_cons, List.filter_nil, ha, hb, hc] at hp
      norm_num at hp
      exact hp
    have h0 : (l.foldl Scheduler.readyToRun emptySched).ready0 = [a] := by
      rw [foldl_rtr_ready0, hf0]; rfl
    have h1 : (l.foldl Scheduler.readyToRun emptySched).ready1 = [b] := by
      rw [foldl_rtr_ready1, hf1]; rfl
    have h2 : (l.foldl Scheduler.readyToRun emptySched).ready2 = [c] := by
      rw [foldl_rtr_ready2, hf2]; rfl
    have hS : l.foldl Scheduler.readyToRun emptySched
        = (⟨[a], [b], [c]⟩ : Scheduler) := by
      rw [show l.foldl Scheduler.readyToRun emptySched
          = ⟨(l.foldl Scheduler.readyToRun emptySched).ready0,
             (l.foldl Scheduler.readyToRun emptySched).ready1,
             (l.foldl Scheduler.readyToRun emptySched).ready2⟩ from rfl,
        h0, h1, h2]
    rw [hS]
    exact ⟨rfl, rfl, rfl, rfl⟩
  · intro s
    rcases s with ⟨r0, r1, r2⟩
    cases r2 <;> cases r1 <;> cases r0 <;>
      simp [Scheduler.findNextToRun]

/-- Witness for C4: priorities {5, 20, 25} made ready in that arrival
order pop as 25, 20, 5, then null. -/
theorem c4_witness :
    (Scheduler.findNextToRun c4s).1 = some ⟨2, 25⟩ ∧
    (Scheduler.findNextToRun (Scheduler.findNextToRun c4s).2).1 = some ⟨1, 20⟩ ∧
    (Scheduler.findNextToRun
      (Scheduler.findNextToRun (Scheduler.findNextToRun c4s).2).2).1
        = some ⟨0, 5⟩ ∧
    (Scheduler.findNextToRun
      (Scheduler.findNextToRun
        (Scheduler.findNextToRun (Scheduler.findNextToRun c4s).2).2).2).1
        = none :=
  c4_sched_priority.2.1 ⟨0, 5⟩ ⟨1, 20⟩ ⟨2, 25⟩ [⟨0, 5⟩, ⟨1, 20⟩, ⟨2, 25⟩]
    rfl rfl rfl (List.Perm.refl _)

/-- Amended claim C5: threads of equal priority in one tier are dequeued
in arrival order (the stable insert appends behind existing equals): with
every thread in the mid tier at priority 20, inserting T1 then T2 (both
20) appends them in that order, and when the mid tier was empty and the
high tier is empty, the next two pops yield T1 then T2.  (Within a tier,
threads of unequal priorities dequeue in ascending priority order, not
arrival order — see the counterexample.) -/
theorem c5_fifo_amended (s : Scheduler) (T1 T2 : KThread)
    (h1 : T1.priority = 20) (h2 : T2.priority = 20)
    (hmid : ∀ x ∈ s.ready1, x.priority = 20) :
    (Scheduler.readyToRun (Scheduler.readyToRun s T1) T2).ready1
        = s.ready1 ++ [T1, T2] ∧
    (s.ready1 = [] → s.ready2 = [] →
      (Scheduler.findNextToRun
          (Scheduler.readyToRun (Scheduler.readyToRun s T1) T2)).1 = some T1 ∧
      (Scheduler.findNextToRun
          (Scheduler.findNextToRun
            (Scheduler.readyToRun (Scheduler.readyToRun s T1) T2)).2).1
          = some T2) := by
  have e1 : (Scheduler.readyToRun s T1).ready1 = s.ready1 ++ [T1] := by
    rw [readyToRun_ready1, if_pos h1, sortedInsert_all_le]
    intro x hx
    rw [h1, hmid x hx]
    omega
  have emid : (Scheduler.readyToRun (Scheduler.readyToRun s T1) T2).ready1
      = s.ready1 ++ [T1, T2] := by
    rw [readyToRun_ready1, if_pos h2, e1, sortedInsert_all_le]
    · rw [List.append_assoc]; rfl
    · intro x hx
      rw [h2]
      rcases List.mem_append.mp hx with hx | hx
      · rw [hmid x hx]; omega
      · simp only [List.mem_singleton] at hx
        rw [hx, h1]; omega
  refine ⟨emid, fun hr1 hr2 => ?_⟩
  have e2 : (Scheduler.readyToRun (Scheduler.readyToRun s T1) T2).ready2
      = s.ready2 := by
    rw [readyToRun_ready2, if_neg (by omega), readyToRun_ready2,
      if_neg (by omega)]
  have e0 : (Scheduler.readyToRun (Scheduler.readyToRun s T1) T2).ready0
      = s.ready0 := by
    rw [readyToRun_ready0, if_neg (by omega), readyToRun_ready0,
      if_neg (by omega)]
  have hS : Scheduler.readyToRun (Scheduler.readyToRun s T1) T2
      = (⟨s.ready0, [T1, T2], []⟩ : Scheduler) := by
    rw [show Scheduler.readyToRun (Scheduler.readyToRun s T1) T2
        = ⟨(Scheduler.readyToRun (Scheduler.readyToRun s T1) T2).ready0,
           (Scheduler.readyToRun (Scheduler.readyToRun s T1) T2).ready1,
           (Scheduler.readyToRun (Scheduler.readyToRun s T1) T2).ready2⟩
        from rfl, e0, emid, e2, hr1, hr2]
    rfl
  rw [hS]
  exact ⟨rfl, rfl⟩

/-- Witness for C5 (amended): two priority-20 threads made ready T1 first
pop in order T1, T2. -/
theorem c5_witness :
    (Scheduler.readyToRun (Scheduler.readyToRun emptySched ⟨1, 20⟩)
        ⟨2, 20⟩).ready1 = [⟨1, 20⟩, ⟨2, 20⟩] ∧
    (Scheduler.findNextToRun
        (Scheduler.readyToRun (Scheduler.readyToRun emptySched ⟨1, 20⟩)
          ⟨2, 20⟩)).1 = some ⟨1, 20⟩ ∧
    (Scheduler.findNextToRun
        (Scheduler.findNextToRun
          (Scheduler.readyToRun (Scheduler.readyToRun emptySched ⟨1, 20⟩)
            ⟨2, 20⟩)).2).1 = some ⟨2, 20⟩ := by
  have h := c5_fifo_amended emptySched ⟨1, 20⟩ ⟨2, 20⟩ rfl rfl
    (by intro x hx; simp [emptySched] at hx)
  exact ⟨h.1, (h.2 rfl rfl).1, (h.2 rfl rfl).2⟩

-- Write-path helper lemmas.

/-- A failed `Expand` leaves the state untouched (the in-memory header and
free map are discarded). -/
theorem expand_false (fs : FS) (sector size : Nat)
    (h : (FileSystem.Expand fs sector size).1 = false) :
    (FileSystem.Expand fs sector size).2 = fs := by
  rcases hE : FileHeader.Extend (fs.disk.headers sector) fs.disk.fmap size
    with _ | p
  · simp [FileSystem.Expand, hE]
  · simp [FileSystem.Expand, hE] at h

/-- `usub` on in-range operands with no underflow is plain subtraction. -/
theorem usub_of_le (a b : Nat) (hba : b ≤ a) (ha : a < W32) :
    usub a b = a - b := by
  have ha' : a < 4294967296 := ha
  show (a + 4294967296 - b % 4294967296) % 4294967296 = a - b
  omega

/-- `usub` underflow: for `a < b < W32` the C++ subtraction wraps to
`a + W32 - b`. -/
theorem usub_of_lt (a b : Nat) (hab : a < b) (hb : b < W32) :
    usub a b = a + W32 - b := by
  have hb' : b < 4294967296 := hb
  show (a + 4294967296 - b % 4294967296) % 4294967296 = a + 4294967296 - b
  omega

/-- `Internal_WriteAt` for a request that starts inside the file and fits:
it returns exactly the requested count. -/
theorem internal_write_count (fs : FS) (sector : Nat) (hdr : FileHeader)
    (from_ : List Nat) (numBytes position : Nat)
    (h0 : numBytes ≠ 0) (hpos : position < hdr.FileLength)
    (hfit : position + numBytes ≤ hdr.FileLength) :
    ∃ fs2, Internal_WriteAt fs sector hdr from_ numBytes position
      = some (numBytes, fs2) := by
  simp only [Internal_WriteAt]
  rw [if_neg h0, if_neg (by omega), if_neg (by omega)]
  exact ⟨_, rfl⟩

/-- Amended claim C7: when a `WriteAt` past `Length` hits a failed `Expand`,
the outcome splits on the position: strictly inside the file the count is
clamped to `Length - position` and that short count is returned; strictly
past the end the unsigned clamp wraps and `Internal_WriteAt` returns 0;
only `position = Length` aborts (see the counterexample). -/
theorem c7_truncated_amended (fs : FS) (f : OpenFile) (from_ : List Nat)
    (n position L : Nat)
    (hL : (fs.disk.headers f.sector).FileLength = L)
    (hover : L < position + n)
    (hexp : (FileSystem.Expand fs f.sector (position + n - L + 1)).1 = false)
    (hLw : L < W32) (hpw : position < W32) :
    (position < L →
      (OpenFile.WriteAt fs f from_ n position).map (fun r => r.1)
        = some (L - position)) ∧
    (L < position →
      (OpenFile.WriteAt fs f from_ n position).map (fun r => r.1)
        = some 0) := by
  have hfs2 := expand_false fs f.sector (position + n - L + 1) hexp
  have hLw' : L < 4294967296 := hLw
  have hpw' : position < 4294967296 := hpw
  constructor
  · intro hlt
    have husub : usub L position = L - position :=
      usub_of_le L position (Nat.le_of_lt hlt) hLw
    simp only [OpenFile.WriteAt, hL]
    rw [if_pos hover]
    simp only [hexp, Bool.false_eq_true, if_false, hfs2, husub, hL]
    rw [if_pos (by
      show (position + (L - position)) % W32 ≤ L
      show (position + (L - position)) % 4294967296 ≤ L
      omega)]
    obtain ⟨fs2, he⟩ := internal_write_count fs f.sector
      (fs.disk.headers f.sector) from_ (L - position) position
      (by omega) (by rw [hL]; omega) (by rw [hL]; omega)
    rw [he]
    rfl
  · intro hgt
    have husub : usub L position = L + W32 - position :=
      usub_of_lt L position hgt hpw
    simp only [OpenFile.WriteAt, hL]
    rw [if_pos hover]
    simp only [hexp, Bool.false_eq_true, if_false, hfs2, husub, hL]
    rw [if_pos (by
      show (position + (L + W32 - position)) % W32 ≤ L
      show (position + (L + 4294967296 - position)) % 4294967296 ≤ L
      omega)]
    have hne : L + W32 - position ≠ 0 := by
      show L + 4294967296 - position ≠ 0
      omega
    simp only [Internal_WriteAt]
    rw [if_neg hne, if_pos (show position ≥ (fs.disk.headers f.sector).FileLength by rw [hL]; omega)]
    rfl

/-- Witness for C7 (amended) on the full-disk fixture: a write reaching
past the end from inside returns the short count 28; a write starting
past the end returns 0. -/
theorem c7_witness :
    (OpenFile.WriteAt c7FS c7File (List.replicate 50 9) 50 100).map
      (fun r => r.1) = some 28 ∧
    (OpenFile.WriteAt c7FS c7File [1, 2, 3] 3 200).map
      (fun r => r.1) = some 0 := by
  constructor
  · exact (c7_truncated_amended c7FS c7File (List.replicate 50 9) 50 100 128
      rfl (by omega) rfl (by decide) (by decide)).1 (by omega)
  · exact (c7_truncated_amended c7FS c7File [1, 2, 3] 3 200 128
      rfl (by omega) rfl (by decide) (by decide)).2 (by omega)

-- Extend/Expand helper lemmas.

/-- A successful `allocSectors` returns exactly the requested number of
sectors. -/
theorem allocSectors_length (k : Nat) :
    ∀ (b : Bitmap) (ss : List Nat) (b2 : Bitmap),
      allocSectors b k = some (ss, b2) → ss.length = k := by
  induction k with
  | zero =>
    intro b ss b2 h
    simp only [allocSectors, Option.some.injEq, Prod.mk.injEq] at h
    rw [← h.1]
    rfl
  | succ k ih =>
    intro b ss b2 h
    rcases hF : Bitmap.findAndMark b with _ | ⟨s, b1⟩
    · simp [allocSectors, hF] at h
    · rcases hA : allocSectors b1 k with _ | ⟨ss1, b3⟩
      · simp [allocSectors, hF, hA] at h
      · simp only [allocSectors, hF, hA, Option.map_some', Option.some.injEq,
          Prod.mk.injEq] at h
        rw [← h.1]
        simp [ih b1 ss1 b3 hA]

/-- `divRoundUp` is monotone in the numerator. -/
theorem divRoundUp_mono (a b c : Nat) (h : a ≤ b) :
    divRoundUp a c ≤ divRoundUp b c :=
  Nat.div_le_div_right (by omega)

/-- A successful `Expand` performed exactly an `Extend` of the on-disk
header and persisted header and free map. -/
theorem expand_true (fs : FS) (sector size : Nat)
    (h : (FileSystem.Expand fs sector size).1 = true) :
    ∃ h2 m2,
      FileHeader.Extend (fs.disk.headers sector) fs.disk.fmap size
        = some (h2, m2) ∧
      (FileSystem.Expand fs sector size).2 =
        { fs with disk := { fs.disk with fmap := m2, headers := Function.update fs.disk.headers sector h2 } } := by
  rcases hE : FileHeader.Extend (fs.disk.headers sector) fs.disk.fmap size
    with _ | ⟨h2, m2⟩
  · simp [FileSystem.Expand, hE] at h
  · exact ⟨h2, m2, rfl, by simp [FileSystem.Expand, hE]⟩

/-- What a successful `Extend` does to the header: the length grows by the
delta, the old sector table is a prefix, and the table reaches the new
sector count. -/
theorem extend_some (h : FileHeader) (fm : Bitmap) (add : Nat)
    (h2 : FileHeader) (m2 : Bitmap)
    (hE : FileHeader.Extend h fm add = some (h2, m2)) :
    h2.numBytes = h.numBytes + add ∧
    (∃ ss, h2.dataSectors = h.dataSectors ++ ss) ∧
    h2.dataSectors.length = h.dataSectors.length +
      (divRoundUp (h.numBytes + add) SECTOR_SIZE - h.dataSectors.length) := by
  simp only [FileHeader.Extend] at hE
  split at hE
  · rcases hA : allocSectors fm
        (divRoundUp (h.numBytes + add) SECTOR_SIZE - h.dataSectors.length)
        with _ | ⟨ss1, b3⟩ <;> rw [hA] at hE
    · simp at hE
    · simp only [Option.map_some', Option.some.injEq, Prod.mk.injEq] at hE
      have hq : ss1.length = divRoundUp (h.numBytes + add) SECTOR_SIZE
          - h.dataSectors.length :=
        allocSectors_length _ _ _ _ hA
      rw [← hE.1]
      exact ⟨rfl, ⟨ss1, rfl⟩, by simp [hq]⟩
  · simp at hE

/-- The sector write-back loop only touches data sectors: headers,
directories and the free map are untouched. -/
theorem writeLoop_fields (hdr : FileHeader) (first : Nat) (buf : List Nat) :
    ∀ (l : List Nat) (d : Disk),
      ((l.foldl (fun dd j => Disk.writeData dd
          (hdr.ByteToSector ((first + j) * SECTOR_SIZE))
          (sectorSlice buf j)) d)).headers = d.headers ∧
      ((l.foldl (fun dd j => Disk.writeData dd
          (hdr.ByteToSector ((first + j) * SECTOR_SIZE))
          (sectorSlice buf j)) d)).dirs = d.dirs ∧
      ((l.foldl (fun dd j => Disk.writeData dd
          (hdr.ByteToSector ((first + j) * SECTOR_SIZE))
          (sectorSlice buf j)) d)).fmap = d.fmap := by
  intro l
  induction l with
  | nil => intro d; exact ⟨rfl, rfl, rfl⟩
  | cons j l ih =>
    intro d
    simpa using ih (Disk.writeData d _ _)

/-- `Internal_WriteAt` for a request that starts inside the file and fits
entirely: the full count is written and only data sectors change. -/
theorem internal_write_fit (fs : FS) (sector : Nat) (hdr : FileHeader)
    (from_ : List Nat) (numBytes position : Nat)
    (h0 : numBytes ≠ 0) (hpos : position < hdr.FileLength)
    (hfit : position + numBytes ≤ hdr.FileLength) :
    ∃ fs2, Internal_WriteAt fs sector hdr from_ numBytes position
        = some (numBytes, fs2) ∧
      fs2.disk.headers = fs.disk.headers ∧ fs2.disk.dirs = fs.disk.dirs ∧
      fs2.disk.fmap = fs.disk.fmap ∧ fs2.filetable = fs.filetable := by
  simp only [Internal_WriteAt]
  rw [if_neg h0, if_neg (by omega), if_neg (by omega)]
  refine ⟨_, rfl, ?_, ?_, ?_, rfl⟩
  · exact (writeLoop_fields hdr _ _ _ _).1
  · exact (writeLoop_fields hdr _ _ _ _).2.1
  · exact (writeLoop_fields hdr _ _ _ _).2.2

/-- Amended claim C3: a `WriteAt` of `n > 0` bytes at `position = Length`
whose `Expand` succeeds grows the file to `Length + n + 1` bytes (one more
than the claim's `Length + n`), with the sector table covering exactly
`ceil((Length+n+1)/SECTOR_SIZE)` sectors — which can be one more sector
than the `n` new bytes need; a subsequent `Length()` on any handle of the
same file returns `Length + n + 1` because `Length()` refetches the
header. -/
theorem c3_extend_amended (fs : FS) (f : OpenFile) (from_ : List Nat)
    (n L : Nat)
    (hL : (fs.disk.headers f.sector).FileLength = L)
    (hn : 0 < n)
    (hinv : (fs.disk.headers f.sector).dataSectors.length
      = divRoundUp L SECTOR_SIZE)
    (hexp : (FileSystem.Expand fs f.sector (n + 1)).1 = true) :
    ∃ r fs' f', OpenFile.WriteAt fs f from_ n L = some (r, fs', f') ∧
      (fs'.disk.headers f.sector).numBytes = L + n + 1 ∧
      (fs'.disk.headers f.sector).dataSectors.length
        = divRoundUp (L + n + 1) SECTOR_SIZE ∧
      (∀ g : OpenFile, g.sector = f.sector →
        (OpenFile.Length fs' g).1 = L + n + 1) := by
  obtain ⟨h2, m2, hE, hE2⟩ := expand_true fs f.sector (n + 1) hexp
  have hnb : (fs.disk.headers f.sector).numBytes = L := hL
  obtain ⟨hb2, _, hlen2⟩ := extend_some _ _ _ _ _ hE
  rw [hnb] at hb2 hlen2
  have hmono : divRoundUp L SECTOR_SIZE
      ≤ divRoundUp (L + (n + 1)) SECTOR_SIZE :=
    divRoundUp_mono _ _ _ (by omega)
  have hlen2' : h2.dataSectors.length
      = divRoundUp (L + (n + 1)) SECTOR_SIZE := by
    rw [hlen2, hinv]
    omega
  simp only [OpenFile.WriteAt, hL]
  rw [if_pos (show L < L + n by omega)]
  rw [show L + n - L + 1 = n + 1 from by omega]
  simp only [hexp, if_true, hE2]
  have hup : Function.update fs.disk.headers f.sector h2 f.sector = h2 :=
    Function.update_same _ _ _
  simp only [hup]
  rw [if_pos (by
    show (L + n) % W32 ≤ h2.FileLength
    calc (L + n) % W32 ≤ L + n := Nat.mod_le _ _
    _ ≤ h2.FileLength := by show L + n ≤ h2.numBytes; omega)]
  obtain ⟨fs2, he, hh, hd, hm, ht⟩ := internal_write_fit
    ({ fs with disk := { fs.disk with fmap := m2, headers := Function.update fs.disk.headers f.sector h2 } })
    f.sector h2 from_ n L
    (by omega)
    (by show L < h2.numBytes; omega)
    (by show L + n ≤ h2.numBytes; omega)
  rw [he]
  refine ⟨n, fs2, _, rfl, ?_, ?_, ?_⟩
  · rw [hh]
    simp only [hup]
    omega
  · rw [hh]
    simp only [hup, hlen2']
    congr 1
  · intro g hg
    show (fs2.disk.headers g.sector).FileLength = L + n + 1
    rw [hg, hh]
    simp only [hup]
    show h2.numBytes = L + n + 1
    omega

/-- Witness for C3 (amended): writing 1 byte at offset 127 = Length grows
the 1-sector file to 129 bytes over 2 sectors, and any handle's `Length()`
then returns 129. -/
theorem c3_witness :
    (0 : Nat) < 1 ∧ (FileSystem.Expand c3FS 5 2).1 = true ∧
    (∃ r fs' f', OpenFile.WriteAt c3FS c3File [9] 1 127 = some (r, fs', f') ∧
      (fs'.disk.headers 5).numBytes = 129 ∧
      (fs'.disk.headers 5).dataSectors.length
        = divRoundUp 129 SECTOR_SIZE ∧
      (∀ g : OpenFile, g.sector = 5 →
        (OpenFile.Length fs' g).1 = 129)) :=
  ⟨by decide, rfl,
    c3_extend_amended c3FS c3File [9] 1 127 rfl (by decide) rfl rfl⟩

-- Bitmap and filetable helper lemmas.

/-- Clearing bit `i` makes `Test(i)` false (also when `i` is out of range,
where the default is false). -/
theorem bitmap_test_clear_self (b : Bitmap) (i : Nat) :
    Bitmap.test (Bitmap.clear b i) i = false := by
  simp only [Bitmap.test, Bitmap.clear, List.getD, List.get?_eq_getElem?,
    List.getElem?_set_self']
  cases b[i]? <;> rfl

/-- Clearing bit `i` leaves every other bit unchanged. -/
theorem bitmap_test_clear_other (b : Bitmap) (i j : Nat) (h : j ≠ i) :
    Bitmap.test (Bitmap.clear b i) j = Bitmap.test b j := by
  simp only [Bitmap.test, Bitmap.clear, List.getD_eq_getElem?_getD]
  rw [List.getElem?_set_ne (fun hc => h hc.symm)]

/-- Folding `Clear` preserves bits already false. -/
theorem foldl_clear_keeps_false (l : List Nat) :
    ∀ (fm : Bitmap) (x : Nat), Bitmap.test fm x = false →
      Bitmap.test (l.foldl Bitmap.clear fm) x = false := by
  induction l with
  | nil => intro fm x h; exact h
  | cons i l ih =>
    intro fm x h
    refine ih (Bitmap.clear fm i) x ?_
    by_cases hx : x = i
    · rw [hx]; exact bitmap_test_clear_self fm i
    · rw [bitmap_test_clear_other fm i x hx]; exact h

/-- Folding `Clear` over a list clears every member. -/
theorem foldl_clear_mem (l : List Nat) :
    ∀ (fm : Bitmap) (x : Nat), x ∈ l →
      Bitmap.test (l.foldl Bitmap.clear fm) x = false := by
  induction l with
  | nil => intro fm x h; cases h
  | cons i l ih =>
    intro fm x h
    rcases List.mem_cons.mp h with hx | hx
    · rw [hx]
      exact foldl_clear_keeps_false l (Bitmap.clear fm i) i
        (bitmap_test_clear_self fm i)
    · exact ih (Bitmap.clear fm i) x hx

/-- `Deallocate` clears the bit of every data sector. -/
theorem deallocate_clears (h : FileHeader) (fm : Bitmap) (x : Nat)
    (hx : x ∈ h.dataSectors) :
    Bitmap.test (FileHeader.Deallocate h fm) x = false :=
  foldl_clear_mem h.dataSectors fm x hx

/-- Updating the node of sector `sec` commutes with the keyed lookup when
the update does not change the key. -/
theorem filetable_find_mapNode (t : Filetable) (sec : Nat)
    (g : Filenode → Filenode) (hg : ∀ n, (g n).sector = n.sector) :
    Filetable.find (Filetable.mapNode t sec g) sec
      = (Filetable.find t sec).map g := by
  induction t with
  | nil => rfl
  | cons n t ih =>
    simp only [Filetable.find, Filetable.mapNode, List.map_cons,
      List.find?_cons] at ih ⊢
    by_cases h : (n.sector == sec) = true
    · rw [if_pos h]
      simp only [hg n, h]
      rfl
    · rw [if_neg h]
      have hf : (n.sector == sec) = false := by simpa using h
      simp only [hf, ih]

/-- After `Directory::Remove(name)` clears the (unique) in-use slot with
that name, `Find(name)` no longer resolves it. -/
theorem removeName_findI (name : List Char) :
    ∀ (d : Directory),
      List.countP (fun e => e.inUse && e.name == name) d ≤ 1 →
      Directory.findI (Directory.removeName d name).2 name false = -1 := by
  intro d
  induction d with
  | nil => intro _; rfl
  | cons e rest ih =>
    intro hone
    rw [List.countP_cons] at hone
    by_cases hm : (e.inUse && e.name == name) = true
    · simp only [Directory.removeName, if_pos hm]
      have hc : List.countP (fun e => e.inUse && e.name == name) rest = 0 := by
        simp only [hm, if_pos] at hone
        omega
      have hnone : List.find?
          (fun x => x.inUse && x.isDir == false && x.name == name) rest
          = none := by
        rw [List.find?_eq_none]
        intro x hx hpx
        have hx0 := (List.countP_eq_zero.mp hc) x hx
        apply hx0
        revert hpx
        cases x.inUse <;> cases x.isDir <;> cases hxn : (x.name == name) <;> simp
      simp only [Directory.findI, List.find?_cons, Bool.false_and, hnone]
    · simp only [Directory.removeName, if_neg hm]
      have hone' : List.countP (fun e => e.inUse && e.name == name) rest ≤ 1 := by
        omega
      have hpe : (e.inUse && e.isDir == false && e.name == name) = false := by
        revert hm
        cases e.inUse <;> cases (e.name == name) <;> cases e.isDir <;> simp
      have hih := ih hone'
      simp only [Directory.findI, List.find?_cons, hpe] at hih ⊢
      exact hih

/-- Amended claim C2 (deferred unlink): with a live handle on /a
(`users ≠ 0`), `Remove("/a")` returns true and only sets the node's
`remove` flag — the name does NOT disappear from the parent directory
(the claim's stated mechanism is wrong); a subsequent `Open("/a")`
returns null because the `remove` flag is set; and once the last handle
closes, the destructor's `Remove` reclaims the file: every data-sector
bit and the header-sector bit are clear in the free bitmap, and the
entry has left the parent directory. -/
theorem c2_deferred_unlink (fs : FS) (s : Nat) (node : Filenode)
    (hs : 1 < s)
    (hfind : Directory.findI (fs.disk.dirs 1) aName false = (s : Int))
    (hnode : Filetable.find fs.filetable s = some node)
    (hname : node.name = aName) (hrm : node.remove = false)
    (husers : node.users ≠ 0)
    (hone : List.countP (fun e => e.inUse && e.name == aName)
      (fs.disk.dirs 1) ≤ 1) :
    FileSystem.Remove fs rootPath aPath
      = some (true, { fs with filetable := (Filetable.mapNode fs.filetable s (fun nd => { nd with remove := true })) }) ∧
    (∀ fs1, fs1 = { fs with filetable := (Filetable.mapNode fs.filetable s (fun nd => { nd with remove := true })) } →
      (∃ fs2, FileSystem.Open fs1 rootPath aPath = some (none, fs2)) ∧
      Directory.findI (fs1.disk.dirs 1) aName false = (s : Int) ∧
      (node.users = 1 →
        ∃ fs3, OpenFile.close fs1 rootPath s = some fs3 ∧
          (∀ x ∈ (fs.disk.headers s).dataSectors,
            Bitmap.test fs3.disk.fmap x = false) ∧
          Bitmap.test fs3.disk.fmap s = false ∧
          Directory.findI (fs3.disk.dirs 1) aName false = -1)) := by
  have hOP : FileSystem.OpenPath fs rootPath (checkRoot rootPath aPath)
      = some (fs.disk.dirs 1, 1) := rfl
  have hgn : getName (checkRoot rootPath aPath) = aName := rfl
  have hsneg : ¬ Directory.findI (fs.disk.dirs 1) aName false < 0 := by
    rw [hfind]; omega
  have hbne : (node.users != 0) = true := by simpa using husers
  constructor
  · simp only [FileSystem.Remove, hOP, hgn, hfind, Int.toNat_natCast]
    rw [if_neg (by omega : ¬ (s : Int) < 0)]
    rw [hnode]
    simp only [hbne, if_true]
  · intro fs1 hfs1
    subst hfs1
    have hOP1 : FileSystem.OpenPath
        { fs with filetable := (Filetable.mapNode fs.filetable s (fun nd => { nd with remove := true })) }
        rootPath (checkRoot rootPath aPath)
        = some (fs.disk.dirs 1, 1) := rfl
    have hfmap : Filetable.find
        (Filetable.mapNode fs.filetable s (fun nd => { nd with remove := true })) s
        = some { node with remove := true } := by
      rw [filetable_find_mapNode fs.filetable s
        (fun nd => { nd with remove := true }) (fun n => rfl), hnode]
      rfl
    refine ⟨?_, hfind, ?_⟩
    · have hopeneq : FileSystem.Open
          { fs with filetable := (Filetable.mapNode fs.filetable s (fun nd => { nd with remove := true })) }
          rootPath aPath
          = some (none, { fs with filetable := (Filetable.mapNode fs.filetable s (fun nd => { nd with remove := true })) }) := by
        simp only [FileSystem.Open, hOP1, hgn, hfind, Int.toNat_natCast]
        rw [if_pos (by omega : (s : Int) > 1)]
        rw [hfmap]
        rfl
      exact ⟨_, hopeneq⟩
    · intro hu1
      simp only [OpenFile.close]
      rw [hfmap]
      simp only [hrm]
      rw [if_pos (by rw [hu1]; decide)]
      have hOP2 : FileSystem.OpenPath
          { fs with filetable := (Filetable.mapNode (Filetable.mapNode fs.filetable s (fun nd => { nd with remove := true })) s (fun nd => { nd with users := nd.users - 1 })) }
          rootPath (checkRoot rootPath ({ node with remove := true } : Filenode).name)
          = some (fs.disk.dirs 1, 1) := by
        rw [show ({ node with remove := true } : Filenode).name = aName from hname]
        rfl
      have hfmap2 : Filetable.find
          (Filetable.mapNode (Filetable.mapNode fs.filetable s (fun nd => { nd with remove := true })) s (fun nd => { nd with users := nd.users - 1 })) s
          = some { node with remove := true, users := node.users - 1 } := by
        rw [filetable_find_mapNode
          (Filetable.mapNode fs.filetable s (fun nd => { nd with remove := true })) s
          (fun nd => { nd with users := nd.users - 1 }) (fun n => rfl), hfmap]
        rfl
      simp only [FileSystem.Remove, hOP2]
      rw [show getName (checkRoot rootPath ({ node with remove := true } : Filenode).name) = aName from by rw [hname]; rfl]
      simp only [hfind, Int.toNat_natCast]
      rw [if_neg (by omega : ¬ (s : Int) < 0)]
      rw [hfmap2]
      simp only [hu1]
      norm_num
      refine ⟨fun x hx => ?_, bitmap_test_clear_self _ s, ?_⟩
      · by_cases hxs : x = s
        · rw [hxs]; exact bitmap_test_clear_self _ s
        · rw [bitmap_test_clear_other _ s x hxs]
          exact deallocate_clears _ _ x hx
      · show Directory.findI
            (Function.update fs.disk.dirs 1
              (Directory.removeName (fs.disk.dirs 1) aName).2 1) aName false
            = -1
        rw [Function.update_same]
        exact removeName_findI aName (fs.disk.dirs 1) hone

/-- Witness for C2 on the concrete chain Create "/a" 1; Open "/a": the
deferred unlink, the refused re-open, the surviving directory entry and
the reclaim on last close. -/
theorem c2_witness :
    Directory.findI (c2fsBw.disk.dirs 1) aName false = ((5 : Nat) : Int) ∧
    Filetable.find c2fsBw.filetable 5 = some ⟨aName, 5, 1, false⟩ ∧
    (FileSystem.Remove c2fsBw rootPath aPath
      = some (true, { c2fsBw with filetable := (Filetable.mapNode c2fsBw.filetable 5 (fun nd => { nd with remove := true })) }) ∧
     (∀ fs1, fs1 = { c2fsBw with filetable := (Filetable.mapNode c2fsBw.filetable 5 (fun nd => { nd with remove := true })) } →
        (∃ fs2, FileSystem.Open fs1 rootPath aPath = some (none, fs2)) ∧
        Directory.findI (fs1.disk.dirs 1) aName false = ((5 : Nat) : Int) ∧
        ((⟨aName, 5, 1, false⟩ : Filenode).users = 1 →
          ∃ fs3, OpenFile.close fs1 rootPath 5 = some fs3 ∧
            (∀ x ∈ (c2fsBw.disk.headers 5).dataSectors,
              Bitmap.test fs3.disk.fmap x = false) ∧
            Bitmap.test fs3.disk.fmap 5 = false ∧
            Directory.findI (fs3.disk.dirs 1) aName false = -1))) :=
  ⟨rfl, rfl,
    c2_deferred_unlink c2fsBw 5 ⟨aName, 5, 1, false⟩ (by decide) rfl rfl rfl
      rfl (by decide) (by decide)⟩

-- Byte-buffer lemmas for the sector splice of Internal_ReadAt/WriteAt.

/-- `splice` preserves the buffer length when the source fits. -/
theorem splice_length (buf src : List Nat) (off : Nat)
    (h : off + src.length ≤ buf.length) :
    (splice buf off src).length = buf.length := by
  simp only [splice, List.length_append, List.length_take, List.length_drop]
  omega

/-- A splice at offset 0 overwrites a prefix. -/
theorem splice_zero (buf src : List Nat) :
    splice buf 0 src = src ++ buf.drop src.length := by
  simp [splice]

/-- Slice 0 is the first sector-sized prefix. -/
theorem sectorSlice_zero (buf : List Nat) :
    sectorSlice buf 0 = buf.take SECTOR_SIZE := by
  simp [sectorSlice]

/-- Later slices are slices of the dropped buffer. -/
theorem sectorSlice_succ (buf : List Nat) (j : Nat) :
    sectorSlice buf (j + 1) = sectorSlice (buf.drop SECTOR_SIZE) j := by
  simp only [sectorSlice, List.drop_drop]
  congr 2
  ring

/-- Concatenating all sector slices of an exactly covering buffer
reassembles the buffer. -/
theorem flatten_slices :
    ∀ (k : Nat) (buf : List Nat), buf.length = k * SECTOR_SIZE →
      ((List.range k).map (sectorSlice buf)).flatten = buf := by
  intro k
  induction k with
  | zero =>
    intro buf h
    simp only [Nat.zero_mul, List.length_eq_zero] at h
    simp [h]
  | succ k ih =>
    intro buf h
    have hss : SECTOR_SIZE = 128 := rfl
    rw [List.range_succ_eq_map, List.map_cons, List.map_map,
      List.flatten_cons, sectorSlice_zero]
    have hcomp : (sectorSlice buf ∘ Nat.succ)
        = fun j => sectorSlice (buf.drop SECTOR_SIZE) j := by
      funext j
      exact sectorSlice_succ buf j
    rw [hcomp]
    rw [ih (buf.drop SECTOR_SIZE) (by
      rw [List.length_drop, hss]
      rw [hss] at h
      omega)]
    exact List.take_append_drop SECTOR_SIZE buf

/-- Folding pointwise updates over distinct addresses: the final table holds
each written value. -/
theorem foldlUpdate_get {β : Type} (addr : Nat → Nat) (val : Nat → β) :
    ∀ (n : Nat) (g0 : Nat → β) (j : Nat), j < n →
      (∀ i1 i2, i1 < n → i2 < n → addr i1 = addr i2 → i1 = i2) →
      ((List.range n).foldl (fun g i => Function.update g (addr i) (val i)) g0)
        (addr j) = val j := by
  intro n
  induction n with
  | zero => intro g0 j hj _; exact absurd hj (by omega)
  | succ n ih =>
    intro g0 j hj hinj
    rw [List.range_succ, List.foldl_append, List.foldl_cons, List.foldl_nil]
    by_cases hjn : j = n
    · subst hjn
      exact Function.update_same _ _ _
    · have hj' : j < n := by omega
      rw [Function.update_noteq
        (fun hc => hjn (hinj j n (by omega) (by omega) hc))]
      exact ih g0 j hj' (fun i1 i2 h1 h2 => hinj i1 i2 (by omega) (by omega))

/-- The data table after the write loop is the fold of pointwise updates. -/
theorem writeLoop_data (hdr : FileHeader) (first : Nat) (buf : List Nat) :
    ∀ (l : List Nat) (d : Disk),
      ((l.foldl (fun dd j => Disk.writeData dd
          (hdr.ByteToSector ((first + j) * SECTOR_SIZE))
          (sectorSlice buf j)) d)).data
        = l.foldl (fun g j => Function.update g
            (hdr.ByteToSector ((first + j) * SECTOR_SIZE))
            (sectorSlice buf j)) d.data := by
  intro l
  induction l with
  | nil => intro d; rfl
  | cons j l ih => intro d; exact ih _

/-- `writeLoop`'s data table as a fold of updates. -/
theorem writeLoop_data_eq (d : Disk) (hdr : FileHeader) (first n : Nat)
    (buf : List Nat) :
    (writeLoop d hdr first n buf).data
      = (List.range n).foldl (fun g j => Function.update g
          (hdr.ByteToSector ((first + j) * SECTOR_SIZE))
          (sectorSlice buf j)) d.data :=
  writeLoop_data hdr first buf (List.range n) d

/-- `Internal_ReadAt` never returns more bytes than requested. -/
theorem internal_read_bytes_le (d : Disk) (hdr : FileHeader) (nb pos : Nat) :
    (Internal_ReadAt d hdr nb pos).2.length ≤ nb := by
  simp only [Internal_ReadAt]
  split_ifs with h1 h2 h3
  · simp
  · simp
  · simp only [List.length_take, List.length_drop]
    omega
  · simp only [List.length_take, List.length_drop]
    omega

/-- Reading `len` bytes at offset 0 from the sectors just written by the
write loop returns the first `len` bytes of the written buffer. -/
theorem internal_read_writeLoop (d : Disk) (hdr : FileHeader)
    (wbuf : List Nat) (len : Nat)
    (hinj : ∀ i1 i2, i1 < hdr.dataSectors.length →
      i2 < hdr.dataSectors.length →
      hdr.dataSectors.getD i1 0 = hdr.dataSectors.getD i2 0 → i1 = i2)
    (hLen : hdr.numBytes ≤ hdr.dataSectors.length * SECTOR_SIZE)
    (h0 : 0 < len) (hlenB : len ≤ hdr.numBytes)
    (hwlen : wbuf.length = (1 + (len - 1) / SECTOR_SIZE) * SECTOR_SIZE) :
    Internal_ReadAt (writeLoop d hdr 0 (1 + (len - 1) / SECTOR_SIZE) wbuf)
        hdr len 0
      = (len, wbuf.take len) := by
  have hss : SECTOR_SIZE = 128 := rfl
  have hsspos : 0 < SECTOR_SIZE := by decide
  have hlastlt : (len - 1) / SECTOR_SIZE < hdr.dataSectors.length := by
    rw [Nat.div_lt_iff_lt_mul hsspos]
    rw [hss] at hLen ⊢
    omega
  simp only [Internal_ReadAt]
  rw [if_neg (show ¬ len = 0 by omega)]
  rw [if_neg (show ¬ 0 ≥ hdr.FileLength from
    by show ¬ 0 ≥ hdr.numBytes; omega)]
  rw [if_neg (show ¬ 0 + len > hdr.FileLength from
    by show ¬ 0 + len > hdr.numBytes; omega)]
  simp only [Nat.zero_div, Nat.zero_add, zero_add, Nat.sub_zero, Nat.zero_mul,
    zero_mul, Nat.zero_sub, List.drop_zero]
  have hmap : (List.range (1 + (len - 1) / SECTOR_SIZE)).map
      (fun j => (writeLoop d hdr 0 (1 + (len - 1) / SECTOR_SIZE) wbuf).data
        (hdr.ByteToSector (j * SECTOR_SIZE)))
      = (List.range (1 + (len - 1) / SECTOR_SIZE)).map (sectorSlice wbuf) := by
    apply List.map_congr_left
    intro j hj
    rw [List.mem_range] at hj
    rw [writeLoop_data_eq]
    have := foldlUpdate_get
      (fun i => hdr.ByteToSector ((0 + i) * SECTOR_SIZE)) (sectorSlice wbuf)
      (1 + (len - 1) / SECTOR_SIZE) d.data j hj
      (fun i1 i2 hi1 hi2 hc => by
        apply hinj i1 i2 (by omega) (by omega)
        have hb1 : hdr.ByteToSector ((0 + i1) * SECTOR_SIZE)
            = hdr.dataSectors.getD i1 0 := by
          simp only [FileHeader.ByteToSector, zero_add]
          rw [Nat.mul_div_cancel i1 hsspos]
        have hb2 : hdr.ByteToSector ((0 + i2) * SECTOR_SIZE)
            = hdr.dataSectors.getD i2 0 := by
          simp only [FileHeader.ByteToSector, zero_add]
          rw [Nat.mul_div_cancel i2 hsspos]
        rw [← hb1, ← hb2]
        exact hc)
    simpa using this
  rw [hmap, flatten_slices _ wbuf hwlen]

/-- Core of the round-trip law: writing `B` (nonempty, within the file
length) at offset 0 through `Internal_WriteAt` succeeds with the full
count, touches only data sectors, and an `Internal_ReadAt` of `|B|` bytes
at offset 0 afterwards returns exactly `B`. -/
theorem internal_write_read_zero (fs : FS) (sector : Nat) (hdr : FileHeader)
    (B : List Nat)
    (hinj : ∀ i1 i2, i1 < hdr.dataSectors.length →
      i2 < hdr.dataSectors.length →
      hdr.dataSectors.getD i1 0 = hdr.dataSectors.getD i2 0 → i1 = i2)
    (hLen : hdr.numBytes ≤ hdr.dataSectors.length * SECTOR_SIZE)
    (hB : 0 < B.length) (hBL : B.length ≤ hdr.numBytes) :
    ∃ fs2, Internal_WriteAt fs sector hdr B B.length 0
        = some (B.length, fs2) ∧
      Internal_ReadAt fs2.disk hdr B.length 0 = (B.length, B) ∧
      fs2.disk.headers = fs.disk.headers ∧ fs2.disk.dirs = fs.disk.dirs ∧
      fs2.disk.fmap = fs.disk.fmap ∧ fs2.filetable = fs.filetable := by
  have hss : SECTOR_SIZE = 128 := rfl
  have hsspos : 0 < SECTOR_SIZE := by decide
  have hdm := Nat.div_add_mod (B.length - 1) SECTOR_SIZE
  have hmod : (B.length - 1) % SECTOR_SIZE < SECTOR_SIZE :=
    Nat.mod_lt _ hsspos
  have hlen_le : B.length ≤ (1 + (B.length - 1) / SECTOR_SIZE) * SECTOR_SIZE := by
    rw [hss] at hdm hmod ⊢
    omega
  simp only [Internal_WriteAt]
  rw [if_neg (show ¬ B.length = 0 by omega)]
  rw [if_neg (show ¬ 0 ≥ hdr.FileLength from
    by show ¬ 0 ≥ hdr.numBytes; omega)]
  rw [if_neg (show ¬ 0 + B.length > hdr.FileLength from
    by show ¬ 0 + B.length > hdr.numBytes; omega)]
  simp only [Nat.zero_div, Nat.zero_add, zero_add, Nat.sub_zero, Nat.zero_mul,
    zero_mul, Nat.zero_sub, beq_self_eq_true, Bool.not_true, Bool.or_true,
    Bool.and_true, Bool.false_eq_true, if_false, List.take_length]
  refine ⟨_, rfl, ?_, ?_, ?_, ?_, rfl⟩
  · refine Eq.trans
      (internal_read_writeLoop fs.disk hdr _ B.length hinj hLen hB hBL ?_) ?_
    · have hb2 : ∀ b2 : List Nat,
          b2.length = (1 + (B.length - 1) / SECTOR_SIZE) * SECTOR_SIZE →
          (splice b2 0 B).length
            = (1 + (B.length - 1) / SECTOR_SIZE) * SECTOR_SIZE := by
        intro b2 hb
        rw [splice_length]
        · exact hb
        · rw [hb, hss] at *
          rw [hss] at hlen_le
          omega
      apply hb2
      split
      · refine (splice_length _ _ _ ?_).trans (List.length_replicate _ _)
        rw [List.length_replicate]
        have ht := internal_read_bytes_le fs.disk hdr SECTOR_SIZE
          ((B.length - 1) / SECTOR_SIZE * SECTOR_SIZE)
        rw [hss] at ht ⊢
        omega
      · exact List.length_replicate _ _
    · rw [splice_zero]
      exact congrArg (Prod.mk B.length) (List.take_left B _)
  · exact (writeLoop_fields hdr _ _ _ _).1
  · exact (writeLoop_fields hdr _ _ _ _).2.1
  · exact (writeLoop_fields hdr _ _ _ _).2.2

-- Allocation on a block-shaped bitmap (all-set prefix, all-clear suffix),
-- the shape that the freshly formatted disk and every later allocation
-- state of the C1 chain have.

/-- `findIdx?` on a block bitmap: the first clear bit sits right after the
set prefix. -/
theorem findIdx_block (m : Nat) :
    ∀ (r i : Nat),
      List.findIdx? (fun x => !x)
        (List.replicate m true ++ List.replicate r false) i
      = if r = 0 then none else some (i + m) := by
  induction m with
  | zero =>
    intro r i
    rcases r with _ | r
    · rfl
    · simp [List.replicate_succ, List.findIdx?_cons]
  | succ m ih =>
    intro r i
    rw [List.replicate_succ, List.cons_append, List.findIdx?_cons]
    simp only [Bool.not_true, Bool.false_eq_true, if_false]
    rw [ih r (i + 1)]
    split
    · rfl
    · congr 1
      omega

/-- `Bitmap::Find` (before marking) on a block bitmap finds bit `m`. -/
theorem findClear_block (m r : Nat) (hr : 0 < r) :
    Bitmap.findClear (List.replicate m true ++ List.replicate r false)
      = some m := by
  show List.findIdx? (fun x => !x) _ 0 = some m
  rw [findIdx_block m r 0]
  rw [if_neg (by omega)]
  congr 1
  omega

/-- Marking the first clear bit of a block bitmap extends the set prefix. -/
theorem mark_block (m : Nat) :
    ∀ (l : List Bool),
      (List.replicate m true ++ false :: l).set m true
        = List.replicate (m + 1) true ++ l := by
  induction m with
  | zero => intro l; rfl
  | succ m ih =>
    intro l
    rw [List.replicate_succ, List.cons_append, List.set_cons_succ, ih l,
      List.replicate_succ, List.cons_append]
    rw [show m + 1 + 1 = (m + 1) + 1 from rfl, List.replicate_succ,
      List.cons_append, List.replicate_succ, List.cons_append]

/-- `allocSectors` on a block bitmap hands out the consecutive sectors
after the prefix and extends the prefix accordingly. -/
theorem allocSectors_block (k : Nat) :
    ∀ (m r : Nat), k ≤ r →
      allocSectors (List.replicate m true ++ List.replicate r false) k
        = some (List.range' m k,
            List.replicate (m + k) true ++ List.replicate (r - k) false) := by
  induction k with
  | zero =>
    intro m r _
    simp [allocSectors, List.range']
  | succ k ih =>
    intro m r hk
    have hr : 0 < r := by omega
    have hmark : Bitmap.mark
        (List.replicate m true ++ List.replicate r false) m
        = List.replicate (m + 1) true ++ List.replicate (r - 1) false := by
      have hrep : List.replicate r false
          = false :: List.replicate (r - 1) false := by
        rcases r with _ | r
        · omega
        · rw [List.replicate_succ]
          rfl
      show (List.replicate m true ++ List.replicate r false).set m true = _
      rw [hrep]
      exact mark_block m _
    simp only [allocSectors, Bitmap.findAndMark, findClear_block m r hr,
      Option.map_some', hmark, ih (m + 1) (r - 1) (by omega)]
    simp only [Option.map_some', Option.some.injEq, Prod.mk.injEq]
    refine ⟨?_, ?_⟩
    · rw [List.range'_succ]
    · congr 1
      · congr 1
        omega
      · congr 1
        omega

/-- `kOf n` sectors hold at least `n` bytes. -/
theorem le_kOf_mul (n : Nat) : n ≤ kOf n * SECTOR_SIZE := by
  have hss : SECTOR_SIZE = 128 := rfl
  show n ≤ (n + SECTOR_SIZE - 1) / SECTOR_SIZE * SECTOR_SIZE
  rw [hss]
  have h1 := Nat.div_add_mod (n + 128 - 1) 128
  have h2 : (n + 128 - 1) % 128 < 128 := Nat.mod_lt _ (by omega)
  omega

/-- Indexing consecutive sectors: element `i` of `range' a k` is `a + i`. -/
theorem range'_getD (a k i : Nat) (hi : i < k) :
    (List.range' a k).getD i 0 = a + i := by
  have hlen : i < (List.range' a k).length := by
    rw [List.length_range']
    exact hi
  rw [List.getD_eq_getElem _ _ hlen, List.getElem_range']
  omega

/-- Consecutive sectors are pairwise distinct (index-injectivity form used
by the round-trip core). -/
theorem range'_inj (a k : Nat) :
    ∀ i1 i2, i1 < (List.range' a k).length → i2 < (List.range' a k).length →
      (List.range' a k).getD i1 0 = (List.range' a k).getD i2 0 → i1 = i2 := by
  intro i1 i2 h1 h2 h
  rw [List.length_range'] at h1 h2
  rw [range'_getD a k i1 h1, range'_getD a k i2 h2] at h
  omega

/-- What `Create formatFS "/a" N` computes to: success exactly when the
data fits in the direct blocks, installing the header at sector 5 over
the consecutive data sectors from 6; otherwise failure with the state
untouched. -/
theorem create_a_eq (N : Nat) :
    FileSystem.Create formatFS rootPath aPath N
      = if kOf N ≤ NUM_DIRECT then (true, fsAfterCreate N)
        else (false, formatFS) := by
  have hOP : FileSystem.OpenPath formatFS rootPath (checkRoot rootPath aPath)
      = some (formatFS.disk.dirs 1, 1) := rfl
  have hfm : Bitmap.findAndMark formatFS.disk.fmap
      = some (5, List.replicate 6 true ++ List.replicate 58 false) := rfl
  have hadd : Directory.add (formatFS.disk.dirs 1)
      (getName (checkRoot rootPath aPath)) 5 false = some dirA5 := rfl
  have hcond : (Directory.findI (formatFS.disk.dirs 1)
        (getName (checkRoot rootPath aPath)) true != -1 ||
      Directory.findI (formatFS.disk.dirs 1)
        (getName (checkRoot rootPath aPath)) false != -1) = false := rfl
  simp only [FileSystem.Create, hOP, hcond, Bool.false_eq_true, if_false,
    hfm, hadd]
  by_cases h : kOf N ≤ NUM_DIRECT
  · rw [if_pos h]
    have hAl : FileHeader.Allocate
        (List.replicate 6 true ++ List.replicate 58 false) N
        = some (⟨N, List.range' 6 (kOf N)⟩,
            List.replicate (6 + kOf N) true
              ++ List.replicate (58 - kOf N) false) := by
      simp only [FileHeader.Allocate]
      rw [if_pos (show divRoundUp N SECTOR_SIZE ≤ NUM_DIRECT from h)]
      rw [allocSectors_block (divRoundUp N SECTOR_SIZE) 6 58 (by
        have h30 : divRoundUp N SECTOR_SIZE ≤ 30 := h
        omega)]
      rfl
    rw [hAl]
    rfl
  · rw [if_neg h]
    have hAl : FileHeader.Allocate
        (List.replicate 6 true ++ List.replicate 58 false) N = none := by
      simp only [FileHeader.Allocate]
      rw [if_neg (show ¬ divRoundUp N SECTOR_SIZE ≤ NUM_DIRECT from h)]
    rw [hAl]

/-- Allocation on a block bitmap succeeds only when enough clear bits
remain. -/
theorem allocSectors_block_le :
    ∀ (k m r : Nat) (p : List Nat × Bitmap),
      allocSectors (List.replicate m true ++ List.replicate r false) k
        = some p → k ≤ r := by
  intro k
  induction k with
  | zero => intro m r p _; exact Nat.zero_le r
  | succ k ih =>
    intro m r p hp
    rcases Nat.eq_zero_or_pos r with hr | hr
    · subst hr
      have hfc : Bitmap.findClear (List.replicate m true) = none := by
        have hfi := findIdx_block m 0 0
        rw [show (List.replicate 0 false : List Bool) = [] from rfl,
          List.append_nil] at hfi
        show List.findIdx? (fun x => !x) (List.replicate m true) 0 = none
        rw [hfi]
        simp
      simp [allocSectors, Bitmap.findAndMark, hfc] at hp
    · have hmark : Bitmap.mark
          (List.replicate m true ++ List.replicate r false) m
          = List.replicate (m + 1) true ++ List.replicate (r - 1) false := by
        have hrep : List.replicate r false
            = false :: List.replicate (r - 1) false := by
          rcases r with _ | r
          · omega
          · rw [List.replicate_succ]
            rfl
        show (List.replicate m true ++ List.replicate r false).set m true = _
        rw [hrep]
        exact mark_block m _
      simp only [allocSectors, Bitmap.findAndMark, findClear_block m r hr,
        Option.map_some', hmark] at hp
      rcases hA : allocSectors
          (List.replicate (m + 1) true ++ List.replicate (r - 1) false) k
          with _ | p2 <;> rw [hA] at hp
      · simp at hp
      · have := ih (m + 1) (r - 1) p2 hA
        omega

/-- A successful `Extend` of a consecutive-sector header against a block
bitmap extends the sector run consecutively. -/
theorem extend_block_some (L add r : Nat) (h2 : FileHeader) (m2 : Bitmap)
    (hE : FileHeader.Extend ⟨L, List.range' 6 (kOf L)⟩
        (List.replicate (6 + kOf L) true ++ List.replicate r false) add
        = some (h2, m2)) :
    h2 = ⟨L + add, List.range' 6 (kOf (L + add))⟩ := by
  simp only [FileHeader.Extend] at hE
  split at hE
  case isFalse => simp at hE
  case isTrue h30 =>
    rw [List.length_range'] at hE
    rcases hA : allocSectors
        (List.replicate (6 + kOf L) true ++ List.replicate r false)
        (divRoundUp (L + add) SECTOR_SIZE - kOf L)
        with _ | ⟨ss, b3⟩ <;> rw [hA] at hE
    · simp at hE
    · have hle : divRoundUp (L + add) SECTOR_SIZE - kOf L ≤ r :=
        allocSectors_block_le _ _ _ _ hA
      rw [allocSectors_block _ _ _ hle] at hA
      simp only [Option.some.injEq, Prod.mk.injEq] at hA
      obtain ⟨hss, _⟩ := hA
      simp only [Option.map_some', Option.some.injEq, Prod.mk.injEq] at hE
      obtain ⟨hh2, _⟩ := hE
      rw [← hh2, ← hss]
      have hkk : kOf L ≤ divRoundUp (L + add) SECTOR_SIZE :=
        divRoundUp_mono L (L + add) SECTOR_SIZE (by omega)
      have happ : List.range' 6 (kOf L)
          ++ List.range' (6 + kOf L) (divRoundUp (L + add) SECTOR_SIZE - kOf L)
          = List.range' 6 (divRoundUp (L + add) SECTOR_SIZE) := by
        have hap := List.range'_append 6 (kOf L)
          (divRoundUp (L + add) SECTOR_SIZE - kOf L) 1
        rw [one_mul] at hap
        rw [hap]
        congr 1
        omega
      rw [happ]
      rfl

/-- Opening /a when its node is present with no users: the lookup succeeds
at sector 5 and the node's user count becomes one. -/
theorem open_a_again (fs : FS) (hd : fs.disk.dirs 1 = dirA5)
    (hft : fs.filetable = [⟨aName, 5, 0, false⟩]) :
    FileSystem.Open fs rootPath aPath
      = some (some (OpenFile.mk0 fs 5),
          { fs with filetable := [⟨aName, 5, 1, false⟩] }) := by
  have hOP : FileSystem.OpenPath fs rootPath (checkRoot rootPath aPath)
      = some (fs.disk.dirs 1, 1) := rfl
  have hfi : Directory.findI dirA5 (getName (checkRoot rootPath aPath)) false
      = (5 : Int) := rfl
  have hfind : Filetable.find fs.filetable 5
      = some ⟨aName, 5, 0, false⟩ := by rw [hft]; rfl
  have hmap : Filetable.mapNode fs.filetable 5
        (fun nd => { nd with users := nd.users + 1 })
      = [⟨aName, 5, 1, false⟩] := by rw [hft]; rfl
  have hton : Int.toNat 5 = 5 := rfl
  simp only [FileSystem.Open, hOP, hd, hfi,
    if_pos (show (5 : Int) > 1 by decide), hton, hfind, hmap]
  rfl

/-- Closing the only handle of a node that is not marked for removal just
drops its user count to zero. -/
theorem close_a (fs : FS) (hft : fs.filetable = [⟨aName, 5, 1, false⟩]) :
    OpenFile.close fs rootPath 5
      = some { fs with filetable := [⟨aName, 5, 0, false⟩] } := by
  have hfind : Filetable.find fs.filetable 5
      = some ⟨aName, 5, 1, false⟩ := by rw [hft]; rfl
  have hmap : Filetable.mapNode fs.filetable 5
        (fun nd => { nd with users := nd.users - 1 })
      = [⟨aName, 5, 0, false⟩] := by rw [hft]; rfl
  simp only [OpenFile.close, hfind, hmap]
  rfl

/-- What a fully successful `Write` through the fresh handle of /a does:
the bytes land at offset 0 and read back exactly under the new header,
the header at sector 5 now holds `lenAfterWrite N |B|` bytes over the
consecutive sectors from 6, the parent directory and the open-file table
are untouched, and the handle still points at sector 5. -/
theorem write_a_full (N : Nat) (B : List Nat) (fs3 : FS) (h3 : OpenFile)
    (hk : kOf N ≤ NUM_DIRECT)
    (hw : OpenFile.Write (fs2Of N) (hOf N) B B.length
        = some (B.length, fs3, h3)) :
    Internal_ReadAt fs3.disk
        ⟨lenAfterWrite N B.length,
         List.range' 6 (kOf (lenAfterWrite N B.length))⟩ B.length 0
      = (B.length, B) ∧
    fs3.disk.headers 5
      = ⟨lenAfterWrite N B.length,
         List.range' 6 (kOf (lenAfterWrite N B.length))⟩ ∧
    fs3.disk.dirs 1 = dirA5 ∧
    fs3.filetable = [⟨aName, 5, 1, false⟩] ∧
    h3.sector = 5 ∧ B.length ≤ lenAfterWrite N B.length := by
  have hB0 : B.length ≠ 0 := by
    intro hb
    rw [hb] at hw
    simp [OpenFile.Write] at hw
  have hhdr5 : (fs2Of N).disk.headers 5 = ⟨N, List.range' 6 (kOf N)⟩ := rfl
  have hdirs1 : (fs2Of N).disk.dirs 1 = dirA5 := rfl
  have hftbl : (fs2Of N).filetable = [⟨aName, 5, 1, false⟩] := rfl
  have hN3840 : N ≤ 3840 := by
    have hk' : (N + SECTOR_SIZE - 1) / SECTOR_SIZE ≤ NUM_DIRECT := hk
    have hss : SECTOR_SIZE = 128 := rfl
    have hnd : NUM_DIRECT = 30 := rfl
    rw [hss, hnd] at hk'
    omega
  have hN32 : N < W32 := by
    show N < 4294967296
    omega
  by_cases hcond : N < B.length
  · by_cases he : (FileSystem.Expand (fs2Of N) 5 (B.length - N + 1)).1 = true
    · obtain ⟨h2x, m2x, hE, hE2⟩ :=
        expand_true (fs2Of N) 5 (B.length - N + 1) he
      rw [hhdr5,
        (show (fs2Of N).disk.fmap
            = List.replicate (6 + kOf N) true
              ++ List.replicate (58 - kOf N) false from rfl)] at hE
      have hh2x : h2x
          = ⟨B.length + 1, List.range' 6 (kOf (B.length + 1))⟩ := by
        have hx := extend_block_some N (B.length - N + 1) (58 - kOf N)
          h2x m2x hE
        rw [hx]
        have hadd : N + (B.length - N + 1) = B.length + 1 := by omega
        rw [hadd]
      have hH5e :
          (FileSystem.Expand (fs2Of N) 5 (B.length - N + 1)).2.disk.headers 5
            = ⟨B.length + 1, List.range' 6 (kOf (B.length + 1))⟩ := by
        rw [hE2]
        show Function.update (fs2Of N).disk.headers 5 h2x 5 = _
        rw [Function.update_same]
        exact hh2x
      have hD1e :
          (FileSystem.Expand (fs2Of N) 5 (B.length - N + 1)).2.disk.dirs 1
            = dirA5 := by
        rw [hE2]
        rfl
      have hT1e :
          (FileSystem.Expand (fs2Of N) 5 (B.length - N + 1)).2.filetable
            = [⟨aName, 5, 1, false⟩] := by
        rw [hE2]
        rfl
      obtain ⟨fsW, hIW, hRB, hHp, hDp, hFp, hTp⟩ :=
        internal_write_read_zero
          ((FileSystem.Expand (fs2Of N) 5 (B.length - N + 1)).2) 5
          ⟨B.length + 1, List.range' 6 (kOf (B.length + 1))⟩ B
          (range'_inj 6 (kOf (B.length + 1)))
          (by
            show B.length + 1
              ≤ (List.range' 6 (kOf (B.length + 1))).length * SECTOR_SIZE
            rw [List.length_range']
            exact le_kOf_mul (B.length + 1))
          (by omega)
          (by show B.length ≤ B.length + 1; omega)
      have hmle : B.length % W32 ≤ B.length + 1 := by
        have := Nat.mod_le B.length W32
        omega
      simp only [OpenFile.Write, if_neg hB0, OpenFile.WriteAt, hOf, hhdr5,
        FileHeader.FileLength, zero_add, if_pos hcond, if_pos he, hH5e,
        if_pos hmle, hIW, Option.map_some', Option.some.injEq,
        Prod.mk.injEq, eq_self_iff_true, true_and] at hw
      obtain ⟨hfsW, hh3⟩ := hw
      subst hfsW
      have hlen : lenAfterWrite N B.length = B.length + 1 := by
        simp only [lenAfterWrite, if_pos hcond]
      rw [hlen]
      refine ⟨hRB, ?_, ?_, ?_, ?_, by omega⟩
      · rw [hHp]
        exact hH5e
      · rw [hDp]
        exact hD1e
      · rw [hTp]
        exact hT1e
      · rw [← hh3]
    · exfalso
      have hef : (FileSystem.Expand (fs2Of N) 5 (B.length - N + 1)).1
          = false := by
        cases hx : (FileSystem.Expand (fs2Of N) 5 (B.length - N + 1)).1
        · rfl
        · exact absurd hx he
      have hE2 := expand_false (fs2Of N) 5 (B.length - N + 1) hef
      by_cases hN0 : N = 0
      · subst hN0
        have hu0 : usub 0 0 = 0 := rfl
        have hIW0 : Internal_WriteAt (fs2Of 0) 5
            ⟨0, List.range' 6 (kOf 0)⟩ B 0 0 = none := by
          simp [Internal_WriteAt]
        simp only [OpenFile.Write, if_neg hB0, OpenFile.WriteAt, hOf, hhdr5,
          FileHeader.FileLength, zero_add, if_pos hcond, if_neg he, hE2,
          hu0, Nat.zero_mod, if_pos (Nat.le_refl 0), hIW0] at hw
        exact Option.noConfusion hw
      · obtain ⟨fsX, hX⟩ := internal_write_count (fs2Of N) 5
          ⟨N, List.range' 6 (kOf N)⟩ B N 0 hN0
          (by show (0 : Nat) < N; omega)
          (by show 0 + N ≤ N; omega)
        have hu : usub N 0 = N := by
          rw [usub_of_le N 0 (Nat.zero_le N) hN32]
          omega
        have hmN : N % W32 ≤ N := Nat.mod_le N W32
        simp only [OpenFile.Write, if_neg hB0, OpenFile.WriteAt, hOf, hhdr5,
          FileHeader.FileLength, zero_add, if_pos hcond, if_neg he, hE2,
          hu, if_pos hmN, hX, Option.map_some', Option.some.injEq,
          Prod.mk.injEq] at hw
        obtain ⟨hNB, _⟩ := hw
        omega
  · obtain ⟨fsW, hIW, hRB, hHp, hDp, hFp, hTp⟩ :=
      internal_write_read_zero (fs2Of N) 5 ⟨N, List.range' 6 (kOf N)⟩ B
        (range'_inj 6 (kOf N))
        (by
          show N ≤ (List.range' 6 (kOf N)).length * SECTOR_SIZE
          rw [List.length_range']
          exact le_kOf_mul N)
        (by omega)
        (by show B.length ≤ N; omega)
    have hmle : B.length % W32 ≤ N := by
      have := Nat.mod_le B.length W32
      omega
    simp only [OpenFile.Write, if_neg hB0, OpenFile.WriteAt, hOf, hhdr5,
      FileHeader.FileLength, zero_add, if_neg hcond, if_pos hmle, hIW,
      Option.map_some', Option.some.injEq, Prod.mk.injEq, eq_self_iff_true,
      true_and] at hw
    obtain ⟨hfsW, hh3⟩ := hw
    subst hfsW
    have hlen : lenAfterWrite N B.length = N := by
      simp only [lenAfterWrite, if_neg hcond]
    rw [hlen]
    refine ⟨hRB, ?_, ?_, ?_, ?_, by omega⟩
    · rw [hHp]
      exact hhdr5
    · rw [hDp]
      exact hdirs1
    · rw [hTp]
      exact hftbl
    · rw [← hh3]

/-- C1.  Write/read round-trip: after `Create("/a",N)`, `Open`, a `Write`
of the byte string `B` that succeeds in full, a close of the handle, a
reopen and a `Read` of `|B|` bytes, the bytes read back equal `B`, and
the stored file length (as `Length()` reports it on the reopened handle)
is at least `|B|`. -/
theorem c1_roundtrip (N : Nat) (B : List Nat)
    (fs1 fs2 fs3 fs4 fs5 : FS) (h h3 h2 h2b : OpenFile)
    (R : List Nat) (r : Nat)
    (hcreate : FileSystem.Create formatFS rootPath aPath N = (true, fs1))
    (hopen : FileSystem.Open fs1 rootPath aPath = some (some h, fs2))
    (hwrite : OpenFile.Write fs2 h B B.length = some (B.length, fs3, h3))
    (hclose : OpenFile.close fs3 rootPath h3.sector = some fs4)
    (hreopen : FileSystem.Open fs4 rootPath aPath = some (some h2, fs5))
    (hread : OpenFile.Read fs5 h2 B.length = some (r, R, h2b)) :
    R = B ∧ B.length ≤ (OpenFile.Length fs5 h2).1 := by
  have hB0 : B.length ≠ 0 := by
    intro hb
    rw [hb] at hwrite
    simp [OpenFile.Write] at hwrite
  by_cases hk : kOf N ≤ NUM_DIRECT
  case neg =>
    rw [create_a_eq N, if_neg hk] at hcreate
    injection hcreate with hb _
    exact absurd hb (by decide)
  rw [create_a_eq N, if_pos hk] at hcreate
  injection hcreate with _ hfs1
  subst hfs1
  have hO1 : FileSystem.Open (fsAfterCreate N) rootPath aPath
      = some (some (hOf N), fs2Of N) := rfl
  rw [hO1] at hopen
  simp only [Option.some.injEq, Prod.mk.injEq] at hopen
  obtain ⟨hh, hfs2⟩ := hopen
  subst hh
  subst hfs2
  obtain ⟨hRB, hH5, hD1, hT1, hs3, hlenB⟩ := write_a_full N B fs3 h3 hk hwrite
  rw [hs3, close_a fs3 hT1] at hclose
  injection hclose with hfs4
  subst hfs4
  have hd4 : ({ fs3 with filetable := [⟨aName, 5, 0, false⟩] } : FS).disk.dirs 1
      = dirA5 := hD1
  have hft4 : ({ fs3 with filetable := [⟨aName, 5, 0, false⟩] } : FS).filetable
      = [⟨aName, 5, 0, false⟩] := rfl
  rw [open_a_again _ hd4 hft4] at hreopen
  simp only [Option.some.injEq, Prod.mk.injEq] at hreopen
  obtain ⟨hh2, hfs5⟩ := hreopen
  subst hh2
  subst hfs5
  simp only [OpenFile.Read, if_neg hB0, OpenFile.ReadAt, OpenFile.mk0,
    hH5, hRB, zero_add, Option.some.injEq, Prod.mk.injEq] at hread
  obtain ⟨hr, hR, _⟩ := hread
  constructor
  · exact hR.symm
  · simp only [OpenFile.Length, OpenFile.mk0, FileHeader.FileLength, hH5]
    exact hlenB

/-- C1 witness: the round-trip law instantiated on the concrete chain
`Create("/a",0); Open; Write [7]; close; Open; Read 1`. -/
theorem c1_witness :
    c1Rw = [7] ∧ ([7] : List Nat).length ≤ (OpenFile.Length c1fs5w c1h2w).1 :=
  c1_roundtrip 0 [7] c1fs1w c1fs2w c1fs3w c1fs4w c1fs5w
    c1hw c1h3w c1h2w c1h2bw c1Rw c1rw rfl rfl rfl rfl rfl rfl

/-- Counterexample to C2 as stated: on the concrete chain
`Create("/a",1); Open("/a")`, calling `Remove("/a")` with the handle
still live returns true, yet the name "a" is still found in the parent
directory (at sector 5, not -1) — the claim's mechanism "the name
disappears from the parent directory" is false; the later `Open` returns
null only because the node's `remove` flag is set. -/
theorem c2_deferred_unlink_cx :
    FileSystem.Remove c2fsBw rootPath aPath
      = some (true,
          { c2fsBw with filetable :=
              (Filetable.mapNode c2fsBw.filetable 5
                (fun nd => { nd with remove := true })) }) ∧
    Directory.findI
        (({ c2fsBw with filetable :=
            (Filetable.mapNode c2fsBw.filetable 5
              (fun nd => { nd with remove := true })) } : FS).disk.dirs 1)
        aName false = (5 : Int) ∧
    ((5 : Int) ≠ -1) :=
  ⟨rfl, rfl, by decide⟩
